import Mathlib

/-
Verification of the rendering core and scene parser of a Rust raytracer
(`raytracer/src/common.rs`, `raytracer/src/parser.rs`).

Modelling conventions:
* `f32` scalar values are modelled by the real numbers `ℝ`; the interval
  bounds `t_min`/`t_max` of the intersection queries, which the scene
  aggregate instantiates with `f32::INFINITY`, are modelled by `EReal`
  (the reals extended with `⊥` and `⊤`, where `⊤` plays the role of
  `f32::INFINITY`).  A separate NaN-aware model (`F := Option ℝ`, `none`
  standing for NaN) is used for the panic-reachability analysis of
  `Sphere::hit`'s root selection.
* The vector/colour math crate (`maths.rs`, `color.rs`), the camera
  (`camera.rs`), the material system (`materials.rs`) and the random
  number generator (`random.rs`) are not part of the sources here; they
  are modelled from the spec where needed (each such definition carries a
  `Modelled from the spec:` doc comment).  The renderer is parametric in
  the material type `μ` and in the material `scatter` operation, and the
  random generator is modelled as a stream of real draws.
-/

open scoped Classical

noncomputable section

namespace RT

/-- 3D vector over the reals, modelling the `f32` vector `Vec3` of the
`maths` crate.  `Modelled from the spec:` "3D vector arithmetic,
dot/cross product, normalization, length" (external, assumed correct);
the normalized-vector type `NVec3` is modelled by `Vec3` itself. -/
structure Vec3 where
  x : ℝ
  y : ℝ
  z : ℝ

namespace Vec3

def add (a b : Vec3) : Vec3 := ⟨a.x + b.x, a.y + b.y, a.z + b.z⟩

def sub (a b : Vec3) : Vec3 := ⟨a.x - b.x, a.y - b.y, a.z - b.z⟩

def neg (a : Vec3) : Vec3 := ⟨-a.x, -a.y, -a.z⟩

/-- Scalar multiplication `v * t`. -/
def smul (a : Vec3) (t : ℝ) : Vec3 := ⟨a.x * t, a.y * t, a.z * t⟩

/-- Scalar division `v / t`. -/
def sdiv (a : Vec3) (t : ℝ) : Vec3 := ⟨a.x / t, a.y / t, a.z / t⟩

instance : Add Vec3 := ⟨add⟩

instance : Sub Vec3 := ⟨sub⟩

instance : Neg Vec3 := ⟨neg⟩

def dot (a b : Vec3) : ℝ := a.x * b.x + a.y * b.y + a.z * b.z

def cross (a b : Vec3) : Vec3 :=
  ⟨a.y * b.z - a.z * b.y, a.z * b.x - a.x * b.z, a.x * b.y - a.y * b.x⟩

def lengthSquared (a : Vec3) : ℝ := a.x * a.x + a.y * a.y + a.z * a.z

def length (a : Vec3) : ℝ := Real.sqrt a.lengthSquared

/-- `Modelled from the spec:` normalization divides a vector by its
length. -/
def normalize (a : Vec3) : Vec3 := a.sdiv a.length

def zero : Vec3 := ⟨0, 0, 0⟩

@[simp] theorem add_def (a b : Vec3) : a + b = ⟨a.x + b.x, a.y + b.y, a.z + b.z⟩ := rfl

@[simp] theorem sub_def (a b : Vec3) : a - b = ⟨a.x - b.x, a.y - b.y, a.z - b.z⟩ := rfl

end Vec3

/-- Linear interpolation, `common.rs`: `a*(1.0-t) + b*t`. -/
def lerp (a b : Vec3) (t : ℝ) : Vec3 := a.smul (1 - t) + b.smul t

/-- RGBA colour over the reals, modelling `color.rs`'s `Color`.
`Modelled from the spec:` colours are attenuation/radiance values with an
alpha channel; `Color::new` produces an opaque colour (alpha `1`),
matching the spec's "accumulated attenuation (starts at opaque white)". -/
structure Color where
  r : ℝ
  g : ℝ
  b : ℝ
  a : ℝ

namespace Color

/-- `Color::new(r, g, b)` — opaque. `Modelled from the spec:` see `Color`. -/
def new (r g b : ℝ) : Color := ⟨r, g, b, 1⟩

/-- `Color::new_with_alpha(r, g, b, a)`. `Modelled from the spec:` see `Color`. -/
def newWithAlpha (r g b a : ℝ) : Color := ⟨r, g, b, a⟩

/-- `Modelled from the spec:` componentwise product including alpha
("multiply attenuation by scatter color"). -/
def mulWithAlpha (c d : Color) : Color := ⟨c.r * d.r, c.g * d.g, c.b * d.b, c.a * d.a⟩

/-- `Modelled from the spec:` componentwise sum including alpha
("accumulate summed ray_color results"). -/
def addWithAlpha (c d : Color) : Color := ⟨c.r + d.r, c.g + d.g, c.b + d.b, c.a + d.a⟩

/-- `Vec3 → Color` conversion (`.into()`), opaque.
`Modelled from the spec:` see `Color`. -/
def ofVec3 (v : Vec3) : Color := ⟨v.x, v.y, v.z, 1⟩

end Color

/-- 8-bit RGBA pixel (`ColorU8`), channels modelled as naturals in `[0,255]`. -/
structure ColorU8 where
  r : ℕ
  g : ℕ
  b : ℕ
  a : ℕ
deriving DecidableEq

/-- The Rust saturating cast `f32 as u8`: truncate toward zero and clamp
to `[0, 255]` (no NaN arises in the real-valued model). -/
def toU8 (v : ℝ) : ℕ := (max 0 (min 255 ⌊v⌋)).toNat

/-- `common.rs`: a ray with an origin and a direction.  The source type
of the direction is `NVec3`; the unit-length invariant is carried as a
hypothesis where a claim needs it. -/
structure Ray where
  origin : Vec3
  direction : Vec3

/-- `Ray::at(t) = origin + direction * t`. -/
def Ray.at (r : Ray) (t : ℝ) : Vec3 := r.origin + r.direction.smul t

/-- `common.rs`: hit record: position, outward normal, ray parameter and
the material at the hit point (the Rust borrow `&MaterialType` is
modelled by a value of the abstract material type `μ`). -/
structure HitRecord (μ : Type) where
  position : Vec3
  normal : Vec3
  t : ℝ
  material : μ

/-- `common.rs`: a sphere: center, radius, material. -/
structure Sphere (μ : Type) where
  center : Vec3
  radius : ℝ
  material : μ

/-- The root selection of `Sphere::hit`:
`[root1, root2].iter().filter(|&x| t_min < x && x < t_max).min_by(...)`.
With both roots real (no NaN in the real-valued model) the `min_by`
comparison is total and yields the numeric minimum of the candidates
that survive the filter. -/
def selectRoot (tmin tmax : EReal) (root1 root2 : ℝ) : Option ℝ :=
  if (tmin < (root1 : EReal) ∧ (root1 : EReal) < tmax) ∧
     (tmin < (root2 : EReal) ∧ (root2 : EReal) < tmax) then some (min root1 root2)
  else if tmin < (root1 : EReal) ∧ (root1 : EReal) < tmax then some root1
  else if tmin < (root2 : EReal) ∧ (root2 : EReal) < tmax then some root2
  else none

/-- `Sphere::hit` (common.rs lines 60–98), half-`b` form.  The `f32`
bounds (possibly `f32::INFINITY`) are modelled as `EReal`. -/
def Sphere.hit {μ : Type} (s : Sphere μ) (ray : Ray) (tmin tmax : EReal) :
    Option (HitRecord μ) :=
  let oc := ray.origin - s.center
  let a := ray.direction.lengthSquared
  let half_b := oc.dot ray.direction
  let c := oc.lengthSquared - s.radius ^ 2
  let discriminant := half_b * half_b - a * c
  if discriminant < 0 then none
  else
    let discriminant_sqrt := Real.sqrt discriminant
    let root1 := (-half_b - discriminant_sqrt) / a
    let root2 := (-half_b + discriminant_sqrt) / a
    (selectRoot tmin tmax root1 root2).map
      (fun t => ⟨ray.at t, ((ray.at t - s.center).sdiv s.radius).normalize, t, s.material⟩)

/-- `common.rs`: a triangle: three vertices, precomputed unit face
normal, material. -/
structure Triangle (μ : Type) where
  v0 : Vec3
  v1 : Vec3
  v2 : Vec3
  normal : Vec3
  material : μ

/-- `Triangle::new`: the stored normal is
`((v1 - v0).cross(v2 - v0)).normalize()`. -/
def Triangle.new {μ : Type} (v0 v1 v2 : Vec3) (material : μ) : Triangle μ :=
  ⟨v0, v1, v2, ((v1 - v0).cross (v2 - v0)).normalize, material⟩

/-- `Triangle::intersect` (common.rs lines 124–166).  Note the source
computes the plane parameter as `t = (n·origin + d) / (n·direction)`
with `d = n·v0`; this is kept verbatim (the claims analyse it). -/
def Triangle.intersect {μ : Type} (tri : Triangle μ) (ray : Ray) (tmin tmax : EReal) :
    Option (HitRecord μ) :=
  let a := tri.v1 - tri.v0
  let b := tri.v2 - tri.v0
  let n := a.cross b
  let cos_angle_and_length := n.dot ray.direction
  if -(1e-8 : ℝ) < cos_angle_and_length ∧ cos_angle_and_length < (1e-8 : ℝ) then none
  else
    let d := n.dot tri.v0
    let t := (n.dot ray.origin + d) / cos_angle_and_length
    if (t : EReal) < tmin ∨ tmax < (t : EReal) then none
    else
      let p := ray.at t
      if n.dot ((tri.v1 - tri.v0).cross (p - tri.v0)) < 0 then none
      else if n.dot ((tri.v2 - tri.v1).cross (p - tri.v1)) < 0 then none
      else if n.dot ((tri.v0 - tri.v2).cross (p - tri.v2)) < 0 then none
      else some ⟨p, tri.normal, t, tri.material⟩

/-- `common.rs`: a mesh owns a list of triangles. -/
structure Mesh (μ : Type) where
  triangles : List (Triangle μ)

/-- `Mesh::hit` (common.rs lines 178–224): linear scan keeping the
closest triangle intersection (`closest_intersection` starts at
`f32::INFINITY`, modelled by `⊤ : EReal`). -/
def Mesh.hit {μ : Type} (m : Mesh μ) (ray : Ray) (tmin tmax : EReal) :
    Option (HitRecord μ) :=
  (m.triangles.foldl
    (fun (st : EReal × Option (HitRecord μ)) tri =>
      match Triangle.intersect tri ray tmin tmax with
      | some h =>
          if (h.t : EReal) < st.1 then
            ((h.t : EReal), some ⟨h.position, tri.normal, h.t, tri.material⟩)
          else st
      | none => st)
    (⊤, none)).2

/-- `common.rs`: the scene aggregate. -/
structure World (μ : Type) where
  spheres : List (Sphere μ)
  meshes : List (Mesh μ)

/-- `World::hit` (common.rs lines 237–258): scan the spheres, then the
meshes, with lower bound `0.001` and the running closest distance
(starting at `f32::INFINITY`, modelled `⊤`) as upper bound; every
successful query replaces the record and shrinks the bound. -/
def World.hit {μ : Type} (w : World μ) (ray : Ray) : Option (HitRecord μ) :=
  let afterSpheres := w.spheres.foldl
    (fun (st : EReal × Option (HitRecord μ)) s =>
      match Sphere.hit s ray ((0.001 : ℝ) : EReal) st.1 with
      | some h => ((h.t : EReal), some h)
      | none => st)
    (⊤, none)
  (w.meshes.foldl
    (fun (st : EReal × Option (HitRecord μ)) m =>
      match Mesh.hit m ray ((0.001 : ℝ) : EReal) st.1 with
      | some h => ((h.t : EReal), some h)
      | none => st)
    afterSpheres).2

/-- The traversal of `World::hit` with the two loops swapped: meshes are
searched before spheres.  This definition follows the words of the claim
"the traversal order is swapped so that meshes are searched before
spheres instead of spheres before meshes"; it is compared against
`World.hit` (which follows the source). -/
def World.hitMeshesFirst {μ : Type} (w : World μ) (ray : Ray) : Option (HitRecord μ) :=
  let afterMeshes := w.meshes.foldl
    (fun (st : EReal × Option (HitRecord μ)) m =>
      match Mesh.hit m ray ((0.001 : ℝ) : EReal) st.1 with
      | some h => ((h.t : EReal), some h)
      | none => st)
    (⊤, none)
  (w.spheres.foldl
    (fun (st : EReal × Option (HitRecord μ)) s =>
      match Sphere.hit s ray ((0.001 : ℝ) : EReal) st.1 with
      | some h => ((h.t : EReal), some h)
      | none => st)
    afterMeshes).2

/-- `Modelled from the spec:` the pseudo-random number generator
(`random.rs`, external): its state is a stream of real draws; drawing
returns the head and advances the stream. -/
def Rand : Type := ℕ → ℝ

/-- Draw one value from the random stream (`Random::random_f32`). -/
def randDraw (g : Rand) : ℝ × Rand := (g 0, fun n => g (n + 1))

/-- `Modelled from the spec:` `ScatterData`: "attenuation color plus an
optional continuation ray — absence of a continuation ray means the ray
was absorbed". -/
structure ScatterData where
  color : Color
  next_ray : Option Ray

/-- `Modelled from the spec:` the material scattering operation
(`materials.rs`, missing from the sources): a function from the incoming
ray, the hit record and the random state to a `ScatterData` and the
advanced random state.  The renderer is parametric in it. -/
def Scatter (μ : Type) : Type := Ray → HitRecord μ → Rand → ScatterData × Rand

/-- The loop body of `ray_color` (common.rs lines 263–285), by recursion
on the remaining bounce budget; `final_color` is the accumulated
attenuation. -/
def rayColorLoop {μ : Type} (scatter : Scatter μ) (world : World μ) :
    ℕ → Color → Ray → Rand → Color × Rand
  | 0, _, _, g => (Color.ofVec3 Vec3.zero, g)
  | Nat.succ fuel, final_color, ray, g =>
      match world.hit ray with
      | some hit =>
          let sc := scatter ray hit g
          match sc.1.next_ray with
          | some next_ray =>
              rayColorLoop scatter world fuel (final_color.mulWithAlpha sc.1.color) next_ray sc.2
          | none => (final_color.mulWithAlpha sc.1.color, sc.2)
      | none =>
          let t := 0.5 * (ray.direction.normalize.y + 1)
          let color := Color.ofVec3 (lerp ⟨1, 1, 1⟩ ⟨0.5, 0.7, 1.0⟩ t)
          (final_color.mulWithAlpha color, g)

/-- `ray_color` (common.rs lines 263–285).  The depth is the `i32`
`max_ray_bounces`, modelled as `ℤ`; `for _ in 0..depth` runs
`depth.toNat` times.  Returns the colour and the advanced random
state (the source's `&mut Random`). -/
def rayColor {μ : Type} (scatter : Scatter μ) (ray : Ray) (world : World μ)
    (g : Rand) (depth : ℤ) : Color × Rand :=
  rayColorLoop scatter world depth.toNat (Color.new 1 1 1) ray g

/-- `common.rs`: render options.  The optional progress logger only
writes to the log sink and never touches the framebuffer; it is omitted
from the model. -/
structure Options where
  samples_per_pixel : ℤ
  max_ray_bounces : ℤ
  positive_is_up : Bool

/-- `Modelled from the spec:` the pinhole camera (`camera.rs`, external):
"exposes `cast_ray(u, v) -> Ray` for normalized screen coordinates;
deterministic, no side effects".  Its ray-generation formula is out of
scope, so the camera is modelled as an arbitrary such function. -/
structure Camera where
  cast_ray : ℝ → ℝ → Ray

/-- `image.rs`: the framebuffer: width × height grid of 8-bit RGBA
pixels, row-major. -/
structure Framebuffer where
  width : ℕ
  height : ℕ
  pixels : List ColorU8

/-- The per-pixel sampling loop of `ray_trace`
(`for _ in 0..options.samples_per_pixel`), by recursion on the remaining
sample count: draw the `u` jitter, then the `v` jitter, cast the camera
ray, add the traced colour into the accumulator. -/
def samplePixel {μ : Type} (scatter : Scatter μ) (world : World μ) (camera : Camera)
    (width height : ℕ) (bounces : ℤ) (row col : ℕ) :
    ℕ → Color → Rand → Color × Rand
  | 0, acc, g => (acc, g)
  | Nat.succ n, acc, g =>
      let d1 := randDraw g
      let u := ((col : ℝ) + d1.1) / ((width - 1 : ℕ) : ℝ)
      let d2 := randDraw d1.2
      let v := ((row : ℝ) + d2.1) / ((height - 1 : ℕ) : ℝ)
      let ray := camera.cast_ray u v
      let rc := rayColor scatter ray world d2.2 bounces
      samplePixel scatter world camera width height bounces row col n
        (acc.addWithAlpha rc.1) rc.2

/-- The per-pixel output conversion of `ray_trace` (common.rs lines
343–356): square-root gamma on the r/g/b channels of the sample average,
linear alpha, scale by `255.999`, saturating cast to `u8`. -/
def gammaCorrect (c : Color) (samples : ℤ) : ColorU8 :=
  ⟨toU8 (Real.sqrt (c.r * (1 / (samples : ℝ))) * 255.999),
   toU8 (Real.sqrt (c.g * (1 / (samples : ℝ))) * 255.999),
   toU8 (Real.sqrt (c.b * (1 / (samples : ℝ))) * 255.999),
   toU8 (c.a * (1 / (samples : ℝ)) * 255.999)⟩

/-- The flat pixel index of `framebuffer[[height - row - 1, column]]`. -/
def flipIdx (width height row col : ℕ) : ℕ := (height - row - 1) * width + col

/-- One pixel of the `ray_trace` loop: sample, gamma-correct, and write
at `[height - row - 1, column]`. -/
def renderPixel {μ : Type} (scatter : Scatter μ) (world : World μ) (camera : Camera)
    (fbw fbh : ℕ) (options : Options) (row col : ℕ) (st : Framebuffer × Rand) :
    Framebuffer × Rand :=
  let sp := samplePixel scatter world camera fbw fbh options.max_ray_bounces row col
    options.samples_per_pixel.toNat (Color.new 0 0 0) st.2
  (⟨st.1.width, st.1.height,
    st.1.pixels.set (flipIdx fbw fbh row col)
      (gammaCorrect sp.1 options.samples_per_pixel)⟩, sp.2)

/-- One scanline of the `ray_trace` loop. -/
def renderRow {μ : Type} (scatter : Scatter μ) (world : World μ) (camera : Camera)
    (fbw fbh : ℕ) (options : Options) (st : Framebuffer × Rand) (row : ℕ) :
    Framebuffer × Rand :=
  (List.range fbw).foldl
    (fun st2 col => renderPixel scatter world camera fbw fbh options row col st2) st

/-- `ray_trace` (common.rs lines 320–361): for every row and column,
average `samples_per_pixel` jittered samples, gamma-correct, and write
the pixel at `[height - row - 1, column]`.  The internal `Random::new()`
generator is modelled by the stream argument `g`; the scanline logger
only writes to the log sink and is omitted. -/
def rayTrace {μ : Type} (scatter : Scatter μ) (world : World μ) (camera : Camera)
    (fb : Framebuffer) (options : Options) (g : Rand) : Framebuffer :=
  ((List.range fb.height).foldl
    (renderRow scatter world camera fb.width fb.height options) (fb, g)).1

/-- Reverse the order of the pixel rows of a framebuffer.  This
definition follows the words of the claim: it expresses what "the row
order … top-to-bottom versus bottom-to-top" being flipped would do to
the output. -/
def flipRows (fb : Framebuffer) : Framebuffer :=
  ⟨fb.width, fb.height,
   (List.range fb.height).reverse.flatMap
     (fun row => ((fb.pixels.drop (row * fb.width)).take fb.width))⟩

/-! ### NaN-aware model of `Sphere::hit` for the panic analysis

`F := Option ℝ` models an `f32` that is either a finite real (`some x`)
or NaN (`none`).  Arithmetic propagates NaN; the square root of a
negative number is NaN; every comparison involving NaN is false (IEEE
754 semantics).  Division by zero is modelled as `none`: in IEEE it
yields `±∞` or NaN, and both compare without panicking and fail the
strict interval filter exactly like NaN does, so reachability of the
panic branch is unaffected.  (The claims' preconditions rule this case
out anyway: a unit direction gives `a = 1`.) -/

def F : Type := Option ℝ

namespace F

def add (a b : F) : F := Option.bind a (fun x => Option.map (fun y => x + y) b)

def sub (a b : F) : F := Option.bind a (fun x => Option.map (fun y => x - y) b)

def mul (a b : F) : F := Option.bind a (fun x => Option.map (fun y => x * y) b)

def neg (a : F) : F := Option.map (fun x => -x) a

def div (a b : F) : F :=
  Option.bind a (fun x => Option.bind b (fun y => if y = 0 then none else some (x / y)))

/-- IEEE `sqrt`: NaN on NaN or negative input. -/
def sqrt (a : F) : F :=
  Option.bind a (fun x => if x < 0 then none else some (Real.sqrt x))

/-- IEEE `<`: false whenever an operand is NaN. -/
def lt (a b : F) : Prop := ∃ x y, a = some x ∧ b = some y ∧ x < y

/-- Rust's `partial_cmp` on `f32`: `None` iff an operand is NaN. -/
def pcmp (a b : F) : Option Ordering :=
  Option.bind a (fun x => Option.map (fun y => compare x y) b)

end F

/-- Vector of NaN-aware floats. -/
structure FVec3 where
  x : F
  y : F
  z : F

namespace FVec3

def sub (a b : FVec3) : FVec3 := ⟨F.sub a.x b.x, F.sub a.y b.y, F.sub a.z b.z⟩

def dot (a b : FVec3) : F :=
  F.add (F.add (F.mul a.x b.x) (F.mul a.y b.y)) (F.mul a.z b.z)

def lengthSquared (a : FVec3) : F := dot a a

def ofVec3 (v : Vec3) : FVec3 := ⟨some v.x, some v.y, some v.z⟩

end FVec3

/-- Outcome of the root selection of `Sphere::hit` in the NaN-aware
model: either the `.expect("Tried to compare a NaN")` panic fires, or a
candidate (or nothing) is produced. -/
inductive MinByResult where
  | panicked : MinByResult
  | ok : Option F → MinByResult
deriving DecidableEq

/-- Rust's `Iterator::min_by` over the filtered candidates, with the
closure `|a, b| a.partial_cmp(b).expect(…)`: comparing any pair with a
NaN operand panics. -/
def fminBy : List F → MinByResult
  | [] => MinByResult.ok none
  | x :: xs =>
      match fminBy xs with
      | MinByResult.panicked => MinByResult.panicked
      | MinByResult.ok none => MinByResult.ok (some x)
      | MinByResult.ok (some m) =>
          match F.pcmp x m with
          | none => MinByResult.panicked
          | some Ordering.lt => MinByResult.ok (some x)
          | some _ => MinByResult.ok (some m)

/-- `Sphere::hit`'s control flow up to and including the root selection,
in the NaN-aware model (common.rs lines 74–92).  `IEEE`:
`discriminant < 0.0` is false when the discriminant is NaN, so the NaN
then flows into `sqrt` and the roots. -/
def sphereHitSelectF (center : FVec3) (radius : F) (origin direction : FVec3)
    (tmin tmax : F) : MinByResult :=
  let oc := FVec3.sub origin center
  let a := direction.lengthSquared
  let half_b := oc.dot direction
  let c := F.sub oc.lengthSquared (F.mul radius radius)
  let discriminant := F.sub (F.mul half_b half_b) (F.mul a c)
  if F.lt discriminant (some 0) then MinByResult.ok none
  else
    let discriminant_sqrt := F.sqrt discriminant
    let root1 := F.div (F.sub (F.neg half_b) discriminant_sqrt) a
    let root2 := F.div (F.add (F.neg half_b) discriminant_sqrt) a
    fminBy (([root1, root2].filter (fun x => F.lt tmin x ∧ F.lt x tmax)))

/-! ### The scene-description parser (`parser.rs`)

Rust `&str` slices are modelled as `List Char` (the inputs of interest
are ASCII).  Numeric literal values are computed exactly over `ℚ` and
coerced to `ℝ` where they feed the scene types (`f32` rounding of the
decimal literal is not modelled; no claim depends on the value). -/

/-- `parser.rs` `ParseError`: the named failure kinds. -/
inductive ParseError where
  | CouldntOpenFile : ParseError
  | MissingCamera : ParseError
  | WrongSyntax : ParseError
  | DidntStartWith : ParseError
  | NotAI32 : ParseError
  | NotAF32 : ParseError
deriving DecidableEq

/-- Modelled `&str`. -/
def Str : Type := List Char

/-- Rust `char::is_whitespace` restricted to ASCII (the Unicode
whitespace code points beyond ASCII are not modelled; all inputs of
interest are ASCII). -/
def isWhitespaceRust (c : Char) : Bool :=
  c = ' ' || c = '\t' || c = '\n' || c = '\x0d' || c = '\x0b' || c = '\x0c'

/-- Rust `char::is_alphanumeric` restricted to ASCII. -/
def isAlphanumericRust (c : Char) : Bool :=
  ('a' ≤ c && c ≤ 'z') || ('A' ≤ c && c ≤ 'Z') || ('0' ≤ c && c ≤ '9')

/-- `skip_whitespace`: slice from the first non-whitespace character. -/
def skipWhitespace (s : Str) : Str := s.dropWhile isWhitespaceRust

/-- `get_identifier`: split at the first character that is neither
alphanumeric nor `_`; returns `(rest, identifier)`. -/
def getIdentifier (s : Str) : Str × Str :=
  (s.dropWhile (fun c => isAlphanumericRust c || c = '_'),
   s.takeWhile (fun c => isAlphanumericRust c || c = '_'))

/-- Index of the first occurrence of `target` in `s` (the scan of
`parser.rs`'s `find`). -/
def findIdx0 (s target : Str) : Option ℕ :=
  if target.isPrefixOf s then some 0
  else
    match s with
    | [] => none
    | _ :: cs => (findIdx0 cs target).map (· + 1)

/-- `find`: the suffix of `source` starting at the first occurrence of
`target`, or `DidntStartWith` if there is none. -/
def findStr (s target : Str) : Except ParseError Str :=
  match findIdx0 s target with
  | some i => Except.ok (s.drop i)
  | none => Except.error ParseError.DidntStartWith

/-- `starts_with`: check the prefix and return the slice after it. -/
def startsWith (s target : Str) : Except ParseError Str :=
  if target.isPrefixOf s then Except.ok (s.drop target.length)
  else Except.error ParseError.DidntStartWith

/-- Numeric value of a digit string. -/
def natFromDigits (ds : Str) : ℕ :=
  ds.foldl (fun acc c => 10 * acc + (c.toNat - '0'.toNat)) 0

/-- `parse_int`: scan a (sign-less) digit prefix and parse it as `i32`;
`parse::<i32>()` fails — with `NotAI32` via the `From` conversion — when
the digit string is empty or its value overflows `i32`. -/
def parseInt (s : Str) : Except ParseError (Str × ℤ) :=
  let digits := s.takeWhile Char.isDigit
  let rest := s.drop digits.length
  if digits.isEmpty then Except.error ParseError.NotAI32
  else if 2147483647 < natFromDigits digits then Except.error ParseError.NotAI32
  else Except.ok (rest, (natFromDigits digits : ℤ))

/-- The scanning loop of `parse_float` over the characters after the
optional minus sign: accept digits and at most one dot; a second dot is
an immediate `NotAF32` error (the source `return`s), any other character
stops the scan.  Returns `(scanned, rest)`. -/
def floatScan : Str → Bool → Except ParseError (Str × Str)
  | [], _ => Except.ok ([], [])
  | c :: cs, foundDot =>
      if c.isDigit then
        match floatScan cs foundDot with
        | Except.ok (body, rest) => Except.ok (c :: body, rest)
        | Except.error e => Except.error e
      else if c = '.' then
        if foundDot then Except.error ParseError.NotAF32
        else
          match floatScan cs true with
          | Except.ok (body, rest) => Except.ok (c :: body, rest)
          | Except.error e => Except.error e
      else Except.ok ([], c :: cs)

/-- The exact rational value of a scanned decimal literal
`intpart [. fracpart]` with optional leading minus. -/
def floatValue (neg : Bool) (body : Str) : ℚ :=
  let intPart := body.takeWhile Char.isDigit
  let fracPart := (body.drop intPart.length).drop 1
  let v : ℚ := (natFromDigits intPart : ℚ) +
    (natFromDigits fracPart : ℚ) / ((10 : ℚ) ^ fracPart.length)
  if neg then -v else v

/-- `parse_float`: inputs shorter than 3 characters are rejected
up-front; then the scanned prefix is parsed as `f32`, which fails — with
`NotAF32` via the `From` conversion — exactly when the prefix contains
no digit (`""`, `"-"`, `"."`, `"-."`). -/
def parseFloat (s : Str) : Except ParseError (Str × ℚ) :=
  if s.length < 3 then Except.error ParseError.NotAF32
  else
    let neg : Bool := s.head? == some '-'
    let afterSign := if neg then s.drop 1 else s
    match floatScan afterSign false with
    | Except.error e => Except.error e
    | Except.ok (body, rest) =>
        if body.any Char.isDigit then Except.ok (rest, floatValue neg body)
        else Except.error ParseError.NotAF32

/-- `parse_vec3`: three whitespace-separated floats. -/
def parseVec3 (s : Str) : Except ParseError (Str × Vec3) :=
  match parseFloat s with
  | Except.error e => Except.error e
  | Except.ok (s1, x) =>
      match parseFloat (skipWhitespace s1) with
      | Except.error e => Except.error e
      | Except.ok (s2, y) =>
          match parseFloat (skipWhitespace s2) with
          | Except.error e => Except.error e
          | Except.ok (s3, z) => Except.ok (s3, ⟨(x : ℝ), (y : ℝ), (z : ℝ)⟩)

/-- `Modelled from the spec:` the material variant type
(`materials.rs`, missing from the sources): "variant type over
{Diffuse, Metal, Dielectric}: Diffuse: albedo color; Metal: albedo
color, fuzziness scalar; Dielectric: refractive index". -/
inductive MaterialType where
  | Diffuse : Color → MaterialType
  | Metal : Color → ℝ → MaterialType
  | Dielectric : ℝ → MaterialType

/-- `Modelled from the spec:` the camera description produced by the
parser (`Camera::new_at(origin, aspect)`; `camera.rs` is missing from
the sources): "one camera (origin point, aspect ratio)". -/
structure CameraDesc where
  origin : Vec3
  aspect : ℝ

/-- `parse_camera`: `camera origin <f32> <f32> <f32> aspect <f32> ;`.
`none` exactly when the source does not start with `camera`. -/
def parseCamera (s : Str) : Option (Except ParseError (Str × CameraDesc)) :=
  match startsWith s ("camera".toList) with
  | Except.error _ => none
  | Except.ok s0 => some (do
      let s1 := skipWhitespace s0
      let s2 ← startsWith s1 ("origin".toList)
      let (s3, o) ← parseVec3 (skipWhitespace s2)
      let s4 ← startsWith (skipWhitespace s3) ("aspect".toList)
      let (s5, a) ← parseFloat (skipWhitespace s4)
      let s6 ← startsWith (skipWhitespace s5) (";".toList)
      Except.ok (s6, CameraDesc.mk o (a : ℝ)))

/-- `parse_material`: `material <name> : <type> ;` with the three type
productions; an unrecognized type is `WrongSyntax`. -/
def parseMaterial (s : Str) : Option (Except ParseError (Str × Str × MaterialType)) :=
  match startsWith s ("material".toList) with
  | Except.error _ => none
  | Except.ok s0 => some (do
      let s1 := skipWhitespace s0
      let (s2, name) := getIdentifier s1
      let s3 ← startsWith (skipWhitespace s2) (":".toList)
      let s4 := skipWhitespace s3
      match startsWith s4 ("Diffuse".toList) with
      | Except.ok d0 => do
          let d1 ← startsWith (skipWhitespace d0) ("color".toList)
          let (d2, c) ← parseVec3 (skipWhitespace d1)
          let d3 ← startsWith (skipWhitespace d2) (";".toList)
          Except.ok (d3, name, MaterialType.Diffuse (Color.ofVec3 c))
      | Except.error _ =>
      match startsWith s4 ("Metal".toList) with
      | Except.ok m0 => do
          let m1 ← startsWith (skipWhitespace m0) ("color".toList)
          let (m2, c) ← parseVec3 (skipWhitespace m1)
          let m3 ← startsWith (skipWhitespace m2) ("fuzz".toList)
          let (m4, f) ← parseFloat (skipWhitespace m3)
          let m5 ← startsWith (skipWhitespace m4) (";".toList)
          Except.ok (m5, name, MaterialType.Metal (Color.ofVec3 c) (f : ℝ))
      | Except.error _ =>
      match startsWith s4 ("Dielectric".toList) with
      | Except.ok e0 => do
          let e1 ← startsWith (skipWhitespace e0) ("ir".toList)
          let (e2, i) ← parseFloat (skipWhitespace e1)
          let e3 ← startsWith (skipWhitespace e2) (";".toList)
          Except.ok (e3, name, MaterialType.Dielectric (i : ℝ))
      | Except.error _ => Except.error ParseError.WrongSyntax)

/-- `parse_sphere`: `sphere center <f32> <f32> <f32> radius <f32>
material <name> ;`; an unknown material name is `WrongSyntax`. -/
def parseSphere (s : Str) (materials : List (Str × MaterialType)) :
    Option (Except ParseError (Str × Sphere MaterialType)) :=
  match startsWith s ("sphere".toList) with
  | Except.error _ => none
  | Except.ok s0 => some (do
      let s1 ← startsWith (skipWhitespace s0) ("center".toList)
      let (s2, c) ← parseVec3 (skipWhitespace s1)
      let s3 ← startsWith (skipWhitespace s2) ("radius".toList)
      let (s4, r) ← parseFloat (skipWhitespace s3)
      let s5 ← startsWith (skipWhitespace s4) ("material".toList)
      let (s6, m) := getIdentifier (skipWhitespace s5)
      let s7 ← startsWith (skipWhitespace s6) (";".toList)
      match materials.lookup m with
      | none => Except.error ParseError.WrongSyntax
      | some mat => Except.ok (s7, Sphere.mk c (r : ℝ) mat))

/-- `parse_triangle`: `triangle v0 … v1 … v2 … material <name> ;`. -/
def parseTriangle (s : Str) (materials : List (Str × MaterialType)) :
    Option (Except ParseError (Str × Triangle MaterialType)) :=
  match startsWith s ("triangle".toList) with
  | Except.error _ => none
  | Except.ok s0 => some (do
      let s1 ← startsWith (skipWhitespace s0) ("v0".toList)
      let (s2, a) ← parseVec3 (skipWhitespace s1)
      let s3 ← startsWith (skipWhitespace s2) ("v1".toList)
      let (s4, b) ← parseVec3 (skipWhitespace s3)
      let s5 ← startsWith (skipWhitespace s4) ("v2".toList)
      let (s6, c) ← parseVec3 (skipWhitespace s5)
      let s7 ← startsWith (skipWhitespace s6) ("material".toList)
      let (s8, m) := getIdentifier (skipWhitespace s7)
      let s9 ← startsWith (skipWhitespace s8) (";".toList)
      match materials.lookup m with
      | none => Except.error ParseError.WrongSyntax
      | some mat => Except.ok (s9, Triangle.new a b c mat))

/-- The loop of `skip_comment`, by recursion on a fuel bound: while the
source starts with `//`, drop everything up to and past the next
newline; a comment with no terminating newline is `WrongSyntax`.  Every
iteration consumes at least two characters, so `s.length + 1` rounds of
fuel (as passed by `skipComment`) never run out; the fuel-exhausted
branch is unreachable and returns `WrongSyntax`. -/
def skipCommentGo : ℕ → Str → Except ParseError Str
  | 0, _ => Except.error ParseError.WrongSyntax
  | Nat.succ fuel, s =>
      if (['/', '/'] : Str).isPrefixOf s then
        match findIdx0 (s.drop 2) ['\n'] with
        | some i => skipCommentGo fuel (((s.drop 2).drop i).drop 1)
        | none => Except.error ParseError.WrongSyntax
      else Except.ok s

/-- `skip_comment`. -/
def skipComment (s : Str) : Except ParseError Str := skipCommentGo (s.length + 1) s

/-- The shared shape of the three `while let Some(result) = parse_…`
loops of `parse_input`: run the step; on `None` stop, on a parse error
abort, on success accumulate, skip whitespace and comments, continue.
Each successful step consumes at least one character, so `s.length + 1`
rounds of fuel (as passed by `parseInputCore`) never run out; the
fuel-exhausted branch is unreachable and returns `WrongSyntax`. -/
def parseLoop {α β : Type} (step : Str → Option (Except ParseError (Str × α)))
    (upd : β → α → β) : ℕ → Str → β → Except ParseError (Str × β)
  | 0, _, _ => Except.error ParseError.WrongSyntax
  | Nat.succ fuel, s, acc =>
      match step s with
      | none => Except.ok (s, acc)
      | some (Except.error e) => Except.error e
      | some (Except.ok (next, a)) =>
          match skipComment (skipWhitespace next) with
          | Except.error e => Except.error e
          | Except.ok s' => parseLoop step upd fuel s' (upd acc a)

/-- `parse_input` up to (but not including) the final emptiness check:
skip comments, require a camera, then the three accumulation loops.
Returns the camera, spheres, triangles and the remaining source. -/
def parseInputCore (s : Str) :
    Except ParseError (CameraDesc × List (Sphere MaterialType) ×
      List (Triangle MaterialType) × Str) :=
  match skipComment s with
  | Except.error e => Except.error e
  | Except.ok src =>
      match parseCamera src with
      | none => Except.error ParseError.MissingCamera
      | some (Except.error e) => Except.error e
      | some (Except.ok (next, camera)) =>
          match skipComment (skipWhitespace next) with
          | Except.error e => Except.error e
          | Except.ok src1 =>
              match parseLoop parseMaterial (fun m (nm : Str × MaterialType) => nm :: m)
                  (src1.length + 1) src1 [] with
              | Except.error e => Except.error e
              | Except.ok (src2, materials) =>
                  match parseLoop (fun t => parseSphere t materials)
                      (fun l sp => l ++ [sp]) (src2.length + 1) src2 [] with
                  | Except.error e => Except.error e
                  | Except.ok (src3, spheres) =>
                      match parseLoop (fun t => parseTriangle t materials)
                          (fun l tr => l ++ [tr]) (src3.length + 1) src3 [] with
                      | Except.error e => Except.error e
                      | Except.ok (src4, triangles) =>
                          Except.ok (camera, spheres, triangles, src4)

/-- `parse_input` (parser.rs lines 336–382): the pipeline above followed
by the final check that the whole source was consumed. -/
def parseInput (s : Str) :
    Except ParseError (CameraDesc × List (Sphere MaterialType) × Mesh MaterialType) :=
  match parseInputCore s with
  | Except.error e => Except.error e
  | Except.ok (camera, spheres, triangles, rest) =>
      if rest.isEmpty then Except.ok (camera, spheres, Mesh.mk triangles)
      else Except.error ParseError.WrongSyntax

/-- `parse_world`: read the world file and parse it; an unreadable file
(`read_to_string` error) is `CouldntOpenFile`.  The file system read is
modelled by an `Option Str` argument (`none` = the file could not be
read). -/
def parseWorld (file : Option Str) :
    Except ParseError (CameraDesc × List (Sphere MaterialType) × Mesh MaterialType) :=
  match file with
  | none => Except.error ParseError.CouldntOpenFile
  | some s => parseInput s

/-! ### Auxiliary definitions used by the claim statements and proofs -/

/-- The execution of the `ray_color` loop "exhausts its depth budget
without a miss or an absorption": for `n` rounds, the world is hit and
the material scatters with a continuation ray. -/
def Exhausts {μ : Type} (scatter : Scatter μ) (world : World μ) : Ray → Rand → ℕ → Prop
  | _, _, 0 => True
  | ray, g, Nat.succ n =>
      match world.hit ray with
      | none => False
      | some h =>
          match (scatter ray h g).1.next_ray with
          | none => False
          | some r' => Exhausts scatter world r' (scatter ray h g).2 n

/-- One closest-so-far update with a strict comparison (the shape of the
`Sphere::hit`-driven loop of `World::hit`, whose query interval is open
above, and of the triangle loop of `Mesh::hit`). -/
def updLt {α : Type} (st : EReal × Option α) (x : ℝ × α) : EReal × Option α :=
  if (x.1 : EReal) < st.1 then ((x.1 : EReal), some x.2) else st

/-- One closest-so-far update with an inclusive comparison (the shape of
the `Mesh::hit`-driven loop of `World::hit`, whose query interval is
closed above). -/
def updLe {α : Type} (st : EReal × Option α) (x : ℝ × α) : EReal × Option α :=
  if (x.1 : EReal) ≤ st.1 then ((x.1 : EReal), some x.2) else st

/-- Minimum of the candidate values of a candidate list (`⊤` if none). -/
def valsMin {α : Type} (l : List (ℝ × α)) : EReal :=
  l.foldl (fun m x => min m ((x.1 : EReal))) ⊤

/-- The record of the first candidate with value `v`. -/
def findVal {α : Type} (l : List (ℝ × α)) (v : EReal) : Option α :=
  (l.find? (fun x => decide ((x.1 : EReal) = v))).map Prod.snd

/-- The record of the last candidate with value `v`. -/
def lastVal {α : Type} (l : List (ℝ × α)) (v : EReal) : Option α :=
  ((l.filter (fun x => decide ((x.1 : EReal) = v))).getLast?).map Prod.snd

/-- The record of the first candidate attaining the minimum value. -/
def firstAttain {α : Type} (l : List (ℝ × α)) : Option α := findVal l (valsMin l)

/-- The record of the last candidate attaining the minimum value. -/
def lastAttain {α : Type} (l : List (ℝ × α)) : Option α := lastVal l (valsMin l)

/-- The candidate list of one mesh: every triangle's intersection in the
given interval, as a `(t, rebuilt record)` pair (the record rebuilt with
the triangle's normal and material exactly as in `Mesh::hit`). -/
def meshTriCands {μ : Type} (m : Mesh μ) (ray : Ray) (tmin tmax : EReal) :
    List (ℝ × HitRecord μ) :=
  m.triangles.filterMap
    (fun tri => (Triangle.intersect tri ray tmin tmax).map
      (fun h => (h.t, (⟨h.position, tri.normal, h.t, tri.material⟩ : HitRecord μ))))

/-- The sphere candidates of `World::hit`: each sphere's hit on the
unbounded-above interval `(0.001, ∞)`. -/
def sphereCands {μ : Type} (w : World μ) (ray : Ray) : List (ℝ × HitRecord μ) :=
  w.spheres.filterMap
    (fun s => (Sphere.hit s ray ((0.001 : ℝ) : EReal) ⊤).map (fun h => (h.t, h)))

/-- The mesh candidates of `World::hit`: each mesh's hit on the interval
`[0.001, ∞)` (the triangle interval test is inclusive). -/
def meshCands {μ : Type} (w : World μ) (ray : Ray) : List (ℝ × HitRecord μ) :=
  w.meshes.filterMap
    (fun m => (Mesh.hit m ray ((0.001 : ℝ) : EReal) ⊤).map (fun h => (h.t, h)))

/-- All candidate hits of a world for a ray. -/
def worldCands {μ : Type} (w : World μ) (ray : Ray) : List (ℝ × HitRecord μ) :=
  sphereCands w ray ++ meshCands w ray

/-- The per-pixel sample average: the accumulated colour scaled by
`1/samples` on every channel. -/
def avgColor (c : Color) (samples : ℤ) : Color :=
  ⟨c.r * (1 / (samples : ℝ)), c.g * (1 / (samples : ℝ)),
   c.b * (1 / (samples : ℝ)), c.a * (1 / (samples : ℝ))⟩

/-- The output-pixel conversion as the claim words it: square-root gamma
on the r/g/b channels of the averaged colour, the alpha channel linear,
both scaled by `255.999` and truncated to 8 bits.  (This definition
follows the claim's words; `gammaCorrect` follows the source.) -/
def specPixelOf (avg : Color) : ColorU8 :=
  ⟨toU8 (Real.sqrt avg.r * 255.999), toU8 (Real.sqrt avg.g * 255.999),
   toU8 (Real.sqrt avg.b * 255.999), toU8 (avg.a * 255.999)⟩


/-- Concrete material model for the renderer counterexamples: always
scatter white with no continuation. -/
def scatter7 : Scatter Unit := fun _ _ g => (⟨⟨1, 1, 1, 1⟩, none⟩, g)

/-- Concrete camera for the renderer counterexamples: rays at `v = 0`
point straight down (background white), rays at larger `v` point toward
`(0, 3, 4)` (background mix). -/
def camera7 : Camera :=
  ⟨fun _ v => Ray.mk ⟨0, 0, 0⟩ (if v ≤ 0 then ⟨0, -1, 0⟩ else ⟨0, 3, 4⟩)⟩

/-- Concrete 2×2 all-zero framebuffer for the renderer counterexamples. -/
def fb7 : Framebuffer :=
  ⟨2, 2, [⟨0, 0, 0, 0⟩, ⟨0, 0, 0, 0⟩, ⟨0, 0, 0, 0⟩, ⟨0, 0, 0, 0⟩]⟩

/-- Concrete random stream for the renderer counterexamples: always `0`
(no jitter). -/
def g7 : Rand := fun _ => 0

end RT

/-! ## Theorems -/

namespace RT

/-- Expansion of `|ray.at t - center|²` into the quadratic in `t`. -/
theorem at_sub_lengthSquared {μ : Type} (s : Sphere μ) (ray : Ray) (t : ℝ) :
    ((ray.at t) - s.center).lengthSquared =
      ray.direction.lengthSquared * t ^ 2 +
        2 * ((ray.origin - s.center).dot ray.direction) * t +
        (ray.origin - s.center).lengthSquared := by
  simp [Ray.at, Vec3.lengthSquared, Vec3.dot, Vec3.smul]
  ring

/-- Factoring of the half-`b` quadratic through its root formulas. -/
theorem quad_factor (a b c t : ℝ) (ha : a ≠ 0) (hD : 0 ≤ b * b - a * c) :
    a * t ^ 2 + 2 * b * t + c =
      a * (t - (-b - Real.sqrt (b * b - a * c)) / a) *
        (t - (-b + Real.sqrt (b * b - a * c)) / a) := by
  have hsq : Real.sqrt (b * b - a * c) ^ 2 = b * b - a * c := Real.sq_sqrt hD
  generalize hq : Real.sqrt (b * b - a * c) = q at hsq ⊢
  field_simp
  nlinarith [hsq]

/-- With a nonnegative discriminant the quadratic's roots are exactly
the two root formulas of the source. -/
theorem quad_root_iff (a b c t : ℝ) (ha : a ≠ 0) (hD : 0 ≤ b * b - a * c) :
    a * t ^ 2 + 2 * b * t + c = 0 ↔
      t = (-b - Real.sqrt (b * b - a * c)) / a ∨
      t = (-b + Real.sqrt (b * b - a * c)) / a := by
  rw [quad_factor a b c t ha hD, mul_eq_zero, mul_eq_zero]
  constructor
  · rintro ((h0 | h1) | h2)
    · exact absurd h0 ha
    · exact Or.inl (by linarith [sub_eq_zero.mp h1])
    · exact Or.inr (by linarith [sub_eq_zero.mp h2])
  · rintro (h | h)
    · exact Or.inl (Or.inr (by rw [h]; ring))
    · exact Or.inr (by rw [h]; ring)

/-- The filtered-minimum selection returns nothing iff neither root is
strictly inside the interval. -/
theorem selectRoot_none_iff (tmin tmax : EReal) (r1 r2 : ℝ) :
    selectRoot tmin tmax r1 r2 = none ↔
      ¬(tmin < (r1 : EReal) ∧ (r1 : EReal) < tmax) ∧
      ¬(tmin < (r2 : EReal) ∧ (r2 : EReal) < tmax) := by
  unfold selectRoot
  split_ifs with h1 h2 h3 <;> simp_all <;> tauto

/-- If some root is strictly inside the interval, the selection returns
an inside root that is minimal among the inside roots. -/
theorem selectRoot_some (tmin tmax : EReal) (r1 r2 : ℝ)
    (h : (tmin < (r1 : EReal) ∧ (r1 : EReal) < tmax) ∨
         (tmin < (r2 : EReal) ∧ (r2 : EReal) < tmax)) :
    ∃ t, selectRoot tmin tmax r1 r2 = some t ∧ (t = r1 ∨ t = r2) ∧
      (tmin < (t : EReal) ∧ (t : EReal) < tmax) ∧
      ((tmin < (r1 : EReal) ∧ (r1 : EReal) < tmax) → t ≤ r1) ∧
      ((tmin < (r2 : EReal) ∧ (r2 : EReal) < tmax) → t ≤ r2) := by
  unfold selectRoot
  split_ifs with h1 h2 h3
  · rcases le_total r1 r2 with hle | hle
    · exact ⟨min r1 r2, rfl, Or.inl (min_eq_left hle), by rw [min_eq_left hle]; exact h1.1,
        fun _ => min_le_left _ _, fun _ => min_le_right _ _⟩
    · exact ⟨min r1 r2, rfl, Or.inr (min_eq_right hle), by rw [min_eq_right hle]; exact h1.2,
        fun _ => min_le_left _ _, fun _ => min_le_right _ _⟩
  · exact ⟨r1, rfl, Or.inl rfl, h2, fun _ => le_refl _, fun hin2 => absurd ⟨h2, hin2⟩ h1⟩
  · exact ⟨r2, rfl, Or.inr rfl, h3, fun hin1 => absurd hin1 h2, fun _ => le_refl _⟩
  · tauto

/-- C1: for every ray (with nonzero direction, as guaranteed by the
unit-direction invariant) and every sphere of positive radius,
`Sphere::hit` on `[t_min, t_max]` (i) returns nothing when the
discriminant `b² - a·c` is negative; (ii) when some root of
`|O + tD - C|² = r²` lies strictly inside `(t_min, t_max)`, returns a
hit whose `t` is the minimal such root, whose position is `ray.at t` and
satisfies `|hit.position - center| = radius` (exactly, in the
real-number model); and (iii) returns nothing when no root lies strictly
inside the interval. -/
theorem claim1_sphere_hit {μ : Type} (s : Sphere μ) (ray : Ray) (tmin tmax : EReal)
    (ha : 0 < ray.direction.lengthSquared) (hr : 0 < s.radius) :
    (((ray.origin - s.center).dot ray.direction) ^ 2 -
        ray.direction.lengthSquared * ((ray.origin - s.center).lengthSquared - s.radius ^ 2) < 0 →
      s.hit ray tmin tmax = none)
    ∧ (∀ t0 : ℝ, ((ray.at t0) - s.center).lengthSquared = s.radius ^ 2 →
        tmin < (t0 : EReal) → (t0 : EReal) < tmax →
        ∃ h, s.hit ray tmin tmax = some h ∧
          ((ray.at h.t) - s.center).lengthSquared = s.radius ^ 2 ∧
          tmin < (h.t : EReal) ∧ (h.t : EReal) < tmax ∧
          (∀ t' : ℝ, ((ray.at t') - s.center).lengthSquared = s.radius ^ 2 →
            tmin < (t' : EReal) → (t' : EReal) < tmax → h.t ≤ t') ∧
          h.position = ray.at h.t ∧
          (h.position - s.center).length = s.radius)
    ∧ ((∀ t' : ℝ, ((ray.at t') - s.center).lengthSquared = s.radius ^ 2 →
          ¬(tmin < (t' : EReal) ∧ (t' : EReal) < tmax)) →
        s.hit ray tmin tmax = none) := by
  have hane : ray.direction.lengthSquared ≠ 0 := ne_of_gt ha
  have hroot : ∀ t : ℝ, (((ray.at t) - s.center).lengthSquared = s.radius ^ 2) ↔
      ray.direction.lengthSquared * t ^ 2 +
        2 * ((ray.origin - s.center).dot ray.direction) * t +
        ((ray.origin - s.center).lengthSquared - s.radius ^ 2) = 0 := by
    intro t
    rw [at_sub_lengthSquared]
    constructor <;> intro hq <;> linarith
  refine ⟨?_, ?_, ?_⟩
  · intro hdisc
    have hdisc' : ((ray.origin - s.center).dot ray.direction) *
        ((ray.origin - s.center).dot ray.direction) -
        ray.direction.lengthSquared *
          ((ray.origin - s.center).lengthSquared - s.radius ^ 2) < 0 := by
      nlinarith [hdisc]
    simp only [Sphere.hit]
    rw [if_pos hdisc']
  · intro t0 hroot0 hlow hhigh
    have hq0 := (hroot t0).mp hroot0
    have hD0 : 0 ≤ ((ray.origin - s.center).dot ray.direction) *
        ((ray.origin - s.center).dot ray.direction) -
        ray.direction.lengthSquared *
          ((ray.origin - s.center).lengthSquared - s.radius ^ 2) := by
      nlinarith [hq0, sq_nonneg (ray.direction.lengthSquared * t0 +
        (ray.origin - s.center).dot ray.direction)]
    have hriff := fun t => quad_root_iff ray.direction.lengthSquared
      ((ray.origin - s.center).dot ray.direction)
      ((ray.origin - s.center).lengthSquared - s.radius ^ 2) t hane hD0
    have ht0or := (hriff t0).mp hq0
    have hins : (tmin < ((((-((ray.origin - s.center).dot ray.direction) -
        Real.sqrt (((ray.origin - s.center).dot ray.direction) *
          ((ray.origin - s.center).dot ray.direction) -
          ray.direction.lengthSquared *
            ((ray.origin - s.center).lengthSquared - s.radius ^ 2))) /
        ray.direction.lengthSquared : ℝ)) : EReal) ∧
        ((((-((ray.origin - s.center).dot ray.direction) -
        Real.sqrt (((ray.origin - s.center).dot ray.direction) *
          ((ray.origin - s.center).dot ray.direction) -
          ray.direction.lengthSquared *
            ((ray.origin - s.center).lengthSquared - s.radius ^ 2))) /
        ray.direction.lengthSquared : ℝ)) : EReal) < tmax) ∨
        (tmin < ((((-((ray.origin - s.center).dot ray.direction) +
        Real.sqrt (((ray.origin - s.center).dot ray.direction) *
          ((ray.origin - s.center).dot ray.direction) -
          ray.direction.lengthSquared *
            ((ray.origin - s.center).lengthSquared - s.radius ^ 2))) /
        ray.direction.lengthSquared : ℝ)) : EReal) ∧
        ((((-((ray.origin - s.center).dot ray.direction) +
        Real.sqrt (((ray.origin - s.center).dot ray.direction) *
          ((ray.origin - s.center).dot ray.direction) -
          ray.direction.lengthSquared *
            ((ray.origin - s.center).lengthSquared - s.radius ^ 2))) /
        ray.direction.lengthSquared : ℝ)) : EReal) < tmax) := by
      rcases ht0or with h | h
      · exact Or.inl (by rw [← h]; exact ⟨hlow, hhigh⟩)
      · exact Or.inr (by rw [← h]; exact ⟨hlow, hhigh⟩)
    obtain ⟨t, hsel, htor, htin, hle1, hle2⟩ := selectRoot_some tmin tmax _ _ hins
    have hnneg : ¬(((ray.origin - s.center).dot ray.direction) *
        ((ray.origin - s.center).dot ray.direction) -
        ray.direction.lengthSquared *
          ((ray.origin - s.center).lengthSquared - s.radius ^ 2) < 0) := not_lt.mpr hD0
    have htroot : ((ray.at t) - s.center).lengthSquared = s.radius ^ 2 :=
      (hroot t).mpr ((hriff t).mpr htor)
    refine ⟨⟨ray.at t, ((ray.at t - s.center).sdiv s.radius).normalize, t, s.material⟩, ?_, ?_⟩
    · simp only [Sphere.hit]
      rw [if_neg hnneg, hsel]
      rfl
    · refine ⟨htroot, htin.1, htin.2, ?_, rfl, ?_⟩
      · intro t' hr' hl' hh'
        rcases (hriff t').mp ((hroot t').mp hr') with h | h
        · exact h ▸ hle1 (h ▸ ⟨hl', hh'⟩)
        · exact h ▸ hle2 (h ▸ ⟨hl', hh'⟩)
      · show ((ray.at t) - s.center).length = s.radius
        rw [Vec3.length, htroot, Real.sqrt_sq hr.le]
  · intro hnone
    by_cases hdisc : ((ray.origin - s.center).dot ray.direction) *
        ((ray.origin - s.center).dot ray.direction) -
        ray.direction.lengthSquared *
          ((ray.origin - s.center).lengthSquared - s.radius ^ 2) < 0
    · simp only [Sphere.hit]
      rw [if_pos hdisc]
    · have hD0 := not_lt.mp hdisc
      have hriff := fun t => quad_root_iff ray.direction.lengthSquared
        ((ray.origin - s.center).dot ray.direction)
        ((ray.origin - s.center).lengthSquared - s.radius ^ 2) t hane hD0
      simp only [Sphere.hit]
      rw [if_neg hdisc]
      have h1 := hnone _ ((hroot _).mpr ((hriff _).mpr (Or.inl rfl)))
      have h2 := hnone _ ((hroot _).mpr ((hriff _).mpr (Or.inr rfl)))
      rw [(selectRoot_none_iff tmin tmax _ _).mpr ⟨h1, h2⟩]
      rfl

/-- Witness for C1: the unit ray from the origin towards `(0,0,-1)` and
the unit sphere centred at `(0,0,-2)`; the quadratic's roots are `1` and
`3`, and the hit is returned at the minimal inside root `t = 1`. -/
theorem claim1_sphere_hit_witness :
    (0 : ℝ) < (Vec3.mk 0 0 (-1)).lengthSquared ∧ (0 : ℝ) < 1 ∧
    ∃ h, Sphere.hit (Sphere.mk ⟨0, 0, -2⟩ 1 ()) (Ray.mk ⟨0, 0, 0⟩ ⟨0, 0, -1⟩)
        ((0.001 : ℝ) : EReal) ⊤ = some h ∧ h.t = 1 := by
  have h1 : (0 : ℝ) < (Vec3.mk 0 0 (-1)).lengthSquared := by norm_num [Vec3.lengthSquared]
  refine ⟨h1, one_pos, ?_⟩
  have hB := (claim1_sphere_hit (Sphere.mk ⟨0, 0, -2⟩ 1 ()) (Ray.mk ⟨0, 0, 0⟩ ⟨0, 0, -1⟩)
    ((0.001 : ℝ) : EReal) ⊤ h1 one_pos).2.1
  have hroot1 : ((Ray.mk (⟨0, 0, 0⟩ : Vec3) (⟨0, 0, -1⟩ : Vec3)).at 1 -
      (Sphere.mk (⟨0, 0, -2⟩ : Vec3) (1 : ℝ) ()).center).lengthSquared =
      (Sphere.mk (⟨0, 0, -2⟩ : Vec3) (1 : ℝ) ()).radius ^ 2 := by
    norm_num [Ray.at, Vec3.lengthSquared, Vec3.smul]
  have hlow : ((0.001 : ℝ) : EReal) < ((1 : ℝ) : EReal) := by
    rw [EReal.coe_lt_coe_iff]; norm_num
  have hhigh : ((1 : ℝ) : EReal) < ⊤ := EReal.coe_lt_top 1
  obtain ⟨h, hs, hrt, hl, hh, hmin, _, _⟩ := hB 1 hroot1 hlow hhigh
  refine ⟨h, hs, ?_⟩
  have hle : h.t ≤ 1 := hmin 1 hroot1 hlow hhigh
  have heq : h.t ^ 2 - 4 * h.t + 3 = 0 := by
    rw [at_sub_lengthSquared] at hrt
    norm_num [Vec3.lengthSquared, Vec3.dot] at hrt
    nlinarith [hrt]
  have hgt : (0.001 : ℝ) < h.t := by rwa [EReal.coe_lt_coe_iff] at hl
  nlinarith [heq, hle, hgt]

/-- C2 (code bug): the ray from `(1/3, 1/3, -1)` in direction `(0,0,1)`
passes through the centroid `(1/3, 1/3, 1)` of the triangle
`(0,0,1), (1,0,1), (0,1,1)`, is far from parallel to its plane
(`n·direction = 1`), crosses the plane at `t = 2` strictly inside
`(0.001, 1000)` and strictly inside all three edges — yet
`Triangle::intersect` returns nothing: the source computes the plane
parameter as `(n·O + d)/(n·D) = 0` instead of `(d - n·O)/(n·D) = 2`, and
`0 < t_min` rejects it. -/
theorem claim2_triangle_centroid_missed :
    Triangle.intersect (Triangle.new ⟨0, 0, 1⟩ ⟨1, 0, 1⟩ ⟨0, 1, 1⟩ ())
        (Ray.mk ⟨1/3, 1/3, -1⟩ ⟨0, 0, 1⟩) ((0.001 : ℝ) : EReal) ((1000 : ℝ) : EReal) = none ∧
    (((⟨1, 0, 1⟩ : Vec3) - ⟨0, 0, 1⟩).cross ((⟨0, 1, 1⟩ : Vec3) - ⟨0, 0, 1⟩)).dot
        ((Ray.mk (⟨1/3, 1/3, -1⟩ : Vec3) (⟨0, 0, 1⟩ : Vec3)).at 2 - ⟨0, 0, 1⟩) = 0 ∧
    (Ray.mk (⟨1/3, 1/3, -1⟩ : Vec3) (⟨0, 0, 1⟩ : Vec3)).at 2 = ⟨1/3, 1/3, 1⟩ ∧
    ((0.001 : ℝ) : EReal) < ((2 : ℝ) : EReal) ∧ ((2 : ℝ) : EReal) < ((1000 : ℝ) : EReal) ∧
    (1e-8 : ℝ) ≤ (((⟨1, 0, 1⟩ : Vec3) - ⟨0, 0, 1⟩).cross ((⟨0, 1, 1⟩ : Vec3) - ⟨0, 0, 1⟩)).dot
        (⟨0, 0, 1⟩ : Vec3) ∧
    0 < (((⟨1, 0, 1⟩ : Vec3) - ⟨0, 0, 1⟩).cross ((⟨0, 1, 1⟩ : Vec3) - ⟨0, 0, 1⟩)).dot
        ((((⟨1, 0, 1⟩ : Vec3) - ⟨0, 0, 1⟩)).cross
          ((Ray.mk (⟨1/3, 1/3, -1⟩ : Vec3) (⟨0, 0, 1⟩ : Vec3)).at 2 - ⟨0, 0, 1⟩)) ∧
    0 < (((⟨1, 0, 1⟩ : Vec3) - ⟨0, 0, 1⟩).cross ((⟨0, 1, 1⟩ : Vec3) - ⟨0, 0, 1⟩)).dot
        ((((⟨0, 1, 1⟩ : Vec3) - ⟨1, 0, 1⟩)).cross
          ((Ray.mk (⟨1/3, 1/3, -1⟩ : Vec3) (⟨0, 0, 1⟩ : Vec3)).at 2 - ⟨1, 0, 1⟩)) ∧
    0 < (((⟨1, 0, 1⟩ : Vec3) - ⟨0, 0, 1⟩).cross ((⟨0, 1, 1⟩ : Vec3) - ⟨0, 0, 1⟩)).dot
        ((((⟨0, 0, 1⟩ : Vec3) - ⟨0, 1, 1⟩)).cross
          ((Ray.mk (⟨1/3, 1/3, -1⟩ : Vec3) (⟨0, 0, 1⟩ : Vec3)).at 2 - ⟨0, 1, 1⟩)) := by
  refine ⟨?_, ?_, ?_, ?_, ?_, ?_, ?_, ?_, ?_⟩
  · norm_num [Triangle.intersect, Triangle.new, Vec3.cross, Vec3.dot, Vec3.sub_def]
  all_goals norm_num [Vec3.cross, Vec3.dot, Ray.at, Vec3.smul, EReal.coe_lt_coe_iff]


/-- `(1 : EReal) < ⊤`, in the numeral form produced by `norm_num`. -/
theorem ereal_one_lt_top : (1 : EReal) < ⊤ := by
  rw [← EReal.coe_one]; exact EReal.coe_lt_top 1

/-- Comparison of a real coercion against the `EReal` numeral `1`. -/
theorem ereal_coe_lt_one_iff (x : ℝ) : (x : EReal) < 1 ↔ x < 1 := by
  rw [← EReal.coe_one, EReal.coe_lt_coe_iff]

/-- Evaluation of `World::hit` on the one-sphere scene used by the
witnesses: unit sphere at `(0,0,-2)`, unit ray towards `(0,0,-1)`;
the nearest root is `t = 1`. -/
theorem worldS_hit_eval :
    (World.mk [Sphere.mk ⟨0, 0, -2⟩ 1 ()] []).hit (Ray.mk ⟨0, 0, 0⟩ ⟨0, 0, -1⟩) =
      some ⟨⟨0, 0, -1⟩, ⟨0, 0, 1⟩, 1, ()⟩ := by
  have hs : Sphere.hit (Sphere.mk (⟨0, 0, -2⟩ : Vec3) (1 : ℝ) ())
      (Ray.mk ⟨0, 0, 0⟩ ⟨0, 0, -1⟩) ((0.001 : ℝ) : EReal) ⊤ =
      some ⟨⟨0, 0, -1⟩, ⟨0, 0, 1⟩, 1, ()⟩ := by
    norm_num [Sphere.hit, selectRoot, Vec3.lengthSquared, Vec3.dot, Ray.at, Vec3.smul,
      Vec3.normalize, Vec3.sdiv, Vec3.length, EReal.coe_lt_coe_iff, EReal.coe_lt_top,
      ereal_coe_lt_one_iff, ereal_one_lt_top, Real.sqrt_one]
  simp only [World.hit, List.foldl, hs]

/-- C5 (counterexample): with bounce depth `0`, `ray_color` on the empty
world returns black, not the background gradient — the claim's "every
bounce-depth value" fails at depth `0`. -/
theorem claim5_empty_world_counterexample :
    rayColor (fun _ _ g => (⟨⟨1, 1, 1, 1⟩, none⟩, g) : Scatter Unit)
        (Ray.mk ⟨0, 0, 0⟩ ⟨1, 0, 0⟩) (World.mk [] []) (fun _ => 0) 0 =
      (Color.ofVec3 Vec3.zero, (fun _ => 0)) ∧
    Color.ofVec3 Vec3.zero ≠
      Color.ofVec3 (lerp ⟨1, 1, 1⟩ ⟨0.5, 0.7, 1.0⟩
        (0.5 * ((Ray.mk (⟨0, 0, 0⟩ : Vec3) (⟨1, 0, 0⟩ : Vec3)).direction.normalize.y + 1))) := by
  constructor
  · rfl
  · intro hcontra
    have := congrArg Color.r hcontra
    norm_num [Color.ofVec3, lerp, Vec3.zero, Vec3.smul, Vec3.normalize, Vec3.sdiv,
      Vec3.length, Vec3.lengthSquared] at this

/-- C5 (amended): for every ray, every random state and every positive
bounce depth, `ray_color` on a world with zero spheres and zero meshes
returns exactly the background gradient — the lerp between white and sky
blue at `t = 0.5 * (normalize(direction).y + 1)` — without advancing the
random state (no bounce occurs). -/
theorem claim5_empty_world_background {μ : Type} (scatter : Scatter μ) (ray : Ray)
    (g : Rand) (depth : ℤ) (hd : 0 < depth) :
    rayColor scatter ray (World.mk [] []) g depth =
      (Color.ofVec3 (lerp ⟨1, 1, 1⟩ ⟨0.5, 0.7, 1.0⟩
        (0.5 * (ray.direction.normalize.y + 1))), g) := by
  obtain ⟨n, hn⟩ : ∃ n, depth.toNat = n + 1 := ⟨depth.toNat - 1, by omega⟩
  have hit : (World.mk ([] : List (Sphere μ)) []).hit ray = none := rfl
  rw [rayColor, hn]
  simp only [rayColorLoop, hit]
  simp [Color.mulWithAlpha, Color.new, Color.ofVec3]

/-- Witness for the amended C5 at depth `1` and a concrete ray. -/
theorem claim5_empty_world_background_witness :
    (0 : ℤ) < 1 ∧
    rayColor (fun _ _ g => (⟨⟨1, 1, 1, 1⟩, none⟩, g) : Scatter Unit)
        (Ray.mk ⟨0, 0, 0⟩ ⟨1, 0, 0⟩) (World.mk [] []) (fun _ => 0) 1 =
      (Color.ofVec3 (lerp ⟨1, 1, 1⟩ ⟨0.5, 0.7, 1.0⟩
        (0.5 * ((Ray.mk (⟨0, 0, 0⟩ : Vec3) (⟨1, 0, 0⟩ : Vec3)).direction.normalize.y + 1))),
       (fun _ => 0)) :=
  ⟨by norm_num,
   claim5_empty_world_background (fun _ _ g => (⟨⟨1, 1, 1, 1⟩, none⟩, g))
     (Ray.mk ⟨0, 0, 0⟩ ⟨1, 0, 0⟩) (fun _ => 0) 1 (by norm_num)⟩

/-- C6: `ray_color` with `max_ray_bounces = 0` returns black (the
`Vec3::new_zero().into()` value) for every ray, world and random state;
and more generally, whenever the execution exhausts its depth budget
without a miss and without an absorption (`Exhausts`), `ray_color`
returns black. -/
theorem claim6_depth_budget_black {μ : Type} (scatter : Scatter μ) (world : World μ) :
    (∀ (ray : Ray) (g : Rand), rayColor scatter ray world g 0 = (Color.ofVec3 Vec3.zero, g))
    ∧ ∀ (depth : ℤ) (ray : Ray) (g : Rand), Exhausts scatter world ray g depth.toNat →
        (rayColor scatter ray world g depth).1 = Color.ofVec3 Vec3.zero := by
  have key : ∀ (n : ℕ) (fc : Color) (ray : Ray) (g : Rand), Exhausts scatter world ray g n →
      (rayColorLoop scatter world n fc ray g).1 = Color.ofVec3 Vec3.zero := by
    intro n
    induction n with
    | zero => intro fc ray g _; rfl
    | succ n ih =>
        intro fc ray g hex
        unfold Exhausts at hex
        rcases hhit : world.hit ray with _ | h
        · rw [hhit] at hex
          exact hex.elim
        · rw [hhit] at hex
          have hex2 : (match (scatter ray h g).1.next_ray with
              | none => False
              | some r' => Exhausts scatter world r' (scatter ray h g).2 n) := hex
          rcases hnext : (scatter ray h g).1.next_ray with _ | r'
          · rw [hnext] at hex2
            exact hex2.elim
          · rw [hnext] at hex2
            rw [rayColorLoop]
            simp only [hhit, hnext]
            exact ih _ r' (scatter ray h g).2 hex2
  exact ⟨fun ray g => rfl, fun depth ray g hex => key depth.toNat (Color.new 1 1 1) ray g hex⟩

/-- Witness for C6: the one-sphere scene with a material that always
scatters back along the same hitting ray; at depth `0` and at an
exhausted budget of depth `2`, `ray_color` returns black. -/
theorem claim6_depth_budget_black_witness :
    ((rayColor (fun _ _ g => (⟨⟨1, 1, 1, 1⟩, some (Ray.mk ⟨0, 0, 0⟩ ⟨0, 0, -1⟩)⟩, g) : Scatter Unit)
        (Ray.mk ⟨0, 0, 0⟩ ⟨0, 0, -1⟩) (World.mk [Sphere.mk ⟨0, 0, -2⟩ 1 ()] [])
        (fun _ => 0) 0) = (Color.ofVec3 Vec3.zero, (fun _ => 0)))
    ∧ (rayColor (fun _ _ g => (⟨⟨1, 1, 1, 1⟩, some (Ray.mk ⟨0, 0, 0⟩ ⟨0, 0, -1⟩)⟩, g) : Scatter Unit)
        (Ray.mk ⟨0, 0, 0⟩ ⟨0, 0, -1⟩) (World.mk [Sphere.mk ⟨0, 0, -2⟩ 1 ()] [])
        (fun _ => 0) 2).1 = Color.ofVec3 Vec3.zero := by
  have hthm := claim6_depth_budget_black
    (fun _ _ g => (⟨⟨1, 1, 1, 1⟩, some (Ray.mk ⟨0, 0, 0⟩ ⟨0, 0, -1⟩)⟩, g) : Scatter Unit)
    (World.mk [Sphere.mk ⟨0, 0, -2⟩ 1 ()] [])
  refine ⟨hthm.1 _ _, hthm.2 2 _ _ ?_⟩
  show Exhausts _ _ _ _ 2
  unfold Exhausts
  rw [worldS_hit_eval]
  unfold Exhausts
  rw [worldS_hit_eval]
  exact trivial


/-- If no candidate is NaN, `min_by` never reaches the
`partial_cmp … expect` panic, and its minimum is itself non-NaN. -/
theorem fminBy_no_panic (l : List F) (hl : ∀ x ∈ l, x ≠ none) :
    fminBy l ≠ MinByResult.panicked ∧
      (∀ m, fminBy l = MinByResult.ok (some m) → m ≠ none) := by
  induction l with
  | nil => exact ⟨by simp [fminBy], by simp [fminBy]⟩
  | cons x xs ih =>
      have hx : x ≠ none := hl x (List.mem_cons_self x xs)
      have hxs : ∀ y ∈ xs, y ≠ none := fun y hy => hl y (List.mem_cons_of_mem x hy)
      obtain ⟨ih1, ih2⟩ := ih hxs
      rw [fminBy]
      rcases hrec : fminBy xs with _ | v
      · exact absurd hrec ih1
      · rcases v with _ | m
        · constructor
          · simp
          · intro m' hm'
            simp at hm'
            simp [← hm', hx]
        · have hm : m ≠ none := ih2 m hrec
          obtain ⟨a, ha⟩ := Option.ne_none_iff_exists'.mp hx
          obtain ⟨b, hb⟩ := Option.ne_none_iff_exists'.mp hm
          subst ha
          subst hb
          rcases hcc : compare a b with _ | _ | _ <;> constructor <;>
            simp [F.pcmp, hcc] <;> intro m' hm' <;>
            first
            | simp [← hm']
            | simp [hm']

/-- C8: in the NaN-aware model of `Sphere::hit`, the
`expect("Tried to compare a NaN")` panic inside the root selection is
unreachable under the claim's preconditions (finite inputs, unit
direction, positive radius) — and indeed for arbitrary interval bounds:
the strict interval filter `t_min < x && x < t_max` is false on any NaN
operand, so only non-NaN roots ever reach the `min_by` comparison.  The
remaining core operations are total functions in the model (plain loops
and conditionals with no other panic source), so absence of a result is
the only failure signal. -/
theorem claim8_sphere_panic_unreachable (center : Vec3) (radius : ℝ)
    (origin direction : Vec3) (tmin tmax : F)
    (hdir : (FVec3.ofVec3 direction).lengthSquared = some 1)
    (hr : 0 < radius) :
    sphereHitSelectF (FVec3.ofVec3 center) (some radius) (FVec3.ofVec3 origin)
      (FVec3.ofVec3 direction) tmin tmax ≠ MinByResult.panicked := by
  simp only [sphereHitSelectF]
  split_ifs with hlt
  · simp
  · apply (fminBy_no_panic _ ?_).1
    intro x hx
    have hmem := List.mem_filter.mp hx
    have hp := of_decide_eq_true hmem.2
    obtain ⟨u, v, _, hxv, _⟩ := hp.1
    rw [hxv]
    simp

/-- Witness for C8 at the concrete unit-direction ray and unit sphere of
the other witnesses, with finite bounds `0.001` and `1000`. -/
theorem claim8_sphere_panic_unreachable_witness :
    (FVec3.ofVec3 ⟨0, 0, -1⟩).lengthSquared = some 1 ∧ (0 : ℝ) < 1 ∧
    sphereHitSelectF (FVec3.ofVec3 ⟨0, 0, -2⟩) (some 1) (FVec3.ofVec3 ⟨0, 0, 0⟩)
      (FVec3.ofVec3 ⟨0, 0, -1⟩) (some 0.001) (some 1000) ≠ MinByResult.panicked := by
  have hdir : (FVec3.ofVec3 (⟨0, 0, -1⟩ : Vec3)).lengthSquared = some 1 := by
    simp [FVec3.ofVec3, FVec3.lengthSquared, FVec3.dot, F.mul, F.add]
  exact ⟨hdir, one_pos,
    claim8_sphere_panic_unreachable ⟨0, 0, -2⟩ 1 ⟨0, 0, 0⟩ ⟨0, 0, -1⟩
      (some 0.001) (some 1000) hdir one_pos⟩



theorem valsMin_from {α : Type} (l : List (ℝ × α)) (a : EReal) :
    l.foldl (fun m x => min m ((x.1 : EReal))) a = min a (valsMin l) := by
  induction l generalizing a with
  | nil => simp [valsMin]
  | cons x l ih =>
      show l.foldl _ (min a ((x.1 : EReal))) = _
      rw [ih]
      have : valsMin (x :: l) = min ((x.1 : EReal)) (valsMin l) := by
        show l.foldl _ (min ⊤ ((x.1 : EReal))) = _
        rw [ih, min_comm ⊤, min_assoc]
        simp
      rw [this, min_assoc]

theorem valsMin_cons {α : Type} (x : ℝ × α) (l : List (ℝ × α)) :
    valsMin (x :: l) = min ((x.1 : EReal)) (valsMin l) := by
  show l.foldl _ (min ⊤ ((x.1 : EReal))) = _
  rw [valsMin_from, min_comm ⊤, min_assoc]
  simp

theorem valsMin_nil {α : Type} : valsMin ([] : List (ℝ × α)) = ⊤ := rfl

theorem valsMin_le {α : Type} (l : List (ℝ × α)) (x : ℝ × α) (hx : x ∈ l) :
    valsMin l ≤ (x.1 : EReal) := by
  induction l with
  | nil => cases hx
  | cons y l ih =>
      rw [valsMin_cons]
      rcases List.mem_cons.mp hx with h | h
      · rw [h]; exact min_le_left _ _
      · exact le_trans (min_le_right _ _) (ih h)

theorem le_valsMin {α : Type} (l : List (ℝ × α)) (b : EReal)
    (hb : ∀ x ∈ l, b ≤ (x.1 : EReal)) : b ≤ valsMin l := by
  induction l with
  | nil => simp [valsMin_nil]
  | cons y l ih =>
      rw [valsMin_cons]
      exact le_min (hb y (List.mem_cons_self y l))
        (ih (fun x hx => hb x (List.mem_cons_of_mem y hx)))

theorem valsMin_lt_top {α : Type} (l : List (ℝ × α)) (hl : l ≠ []) : valsMin l < ⊤ := by
  rcases l with _ | ⟨x, l⟩
  · exact absurd rfl hl
  · rw [valsMin_cons]
    exact lt_of_le_of_lt (min_le_left _ _) (EReal.coe_lt_top x.1)

theorem valsMin_attained {α : Type} (l : List (ℝ × α)) (hl : valsMin l < ⊤) :
    ∃ x ∈ l, (x.1 : EReal) = valsMin l := by
  induction l with
  | nil => simp [valsMin_nil] at hl
  | cons y l ih =>
      rw [valsMin_cons]
      rcases le_total ((y.1 : EReal)) (valsMin l) with h | h
      · exact ⟨y, List.mem_cons_self y l, (min_eq_left h).symm⟩
      · rw [min_eq_right h]
        rcases lt_or_eq_of_le h with hlt | heq
        · obtain ⟨x, hx, hv⟩ := ih (lt_of_le_of_lt (le_of_lt hlt) (EReal.coe_lt_top y.1))
          exact ⟨x, List.mem_cons_of_mem y hx, hv⟩
        · exact ⟨y, List.mem_cons_self y l, heq.symm⟩



theorem findVal_cons {α : Type} (x : ℝ × α) (l : List (ℝ × α)) (v : EReal) :
    findVal (x :: l) v = if (x.1 : EReal) = v then some x.2 else findVal l v := by
  unfold findVal
  by_cases h : (x.1 : EReal) = v
  · rw [List.find?_cons_of_pos _ (by simp [h]), if_pos h]
    rfl
  · rw [List.find?_cons_of_neg _ (by simp [h]), if_neg h]

theorem getLast?_cons {α : Type} (x : α) (l : List α) :
    (x :: l).getLast? = some (l.getLast?.getD x) := by
  rcases hl : l.getLast? with _ | y
  · have : l = [] := by
      cases l with
      | nil => rfl
      | cons a as => simp [List.getLast?_eq_getLast] at hl
    subst this
    rfl
  · simp only [Option.getD_some]
    rw [← hl]
    cases l with
    | nil => simp at hl
    | cons a as => exact List.getLast?_cons_cons

theorem lastVal_cons {α : Type} (x : ℝ × α) (l : List (ℝ × α)) (v : EReal) :
    lastVal (x :: l) v =
      if (x.1 : EReal) = v then some ((lastVal l v).getD x.2) else lastVal l v := by
  unfold lastVal
  by_cases h : (x.1 : EReal) = v
  · rw [if_pos h, List.filter_cons_of_pos (by simp [h])]
    rw [getLast?_cons]
    rcases hfl : (l.filter (fun y => decide ((y.1 : EReal) = v))).getLast? with _ | z
    · simp
    · simp
  · rw [if_neg h, List.filter_cons_of_neg (by simp [h])]

theorem lastVal_isSome {α : Type} (l : List (ℝ × α)) (hl : valsMin l < ⊤) :
    ∃ r, lastVal l (valsMin l) = some r := by
  obtain ⟨x, hx, hv⟩ := valsMin_attained l hl
  have hmem : x ∈ l.filter (fun y => decide ((y.1 : EReal) = valsMin l)) :=
    List.mem_filter.mpr ⟨hx, by simp [hv]⟩
  have hne : l.filter (fun y => decide ((y.1 : EReal) = valsMin l)) ≠ [] :=
    fun hnil => by simp [hnil] at hmem
  rcases hgl : (l.filter (fun y => decide ((y.1 : EReal) = valsMin l))).getLast? with _ | r
  · exact absurd (List.getLast?_eq_none_iff.mp hgl) hne
  · exact ⟨r.2, by unfold lastVal; rw [hgl]; rfl⟩

theorem lastVal_none_of_lt {α : Type} (l : List (ℝ × α)) (v : EReal) (h : v < valsMin l) :
    lastVal l v = none := by
  unfold lastVal
  have : l.filter (fun y => decide ((y.1 : EReal) = v)) = [] := by
    rw [List.filter_eq_nil_iff]
    intro x hx
    simp only [decide_eq_true_eq]
    intro hv
    exact absurd (hv ▸ valsMin_le l x hx) (not_le.mpr h)
  rw [this]
  rfl

theorem updLt_fst {α : Type} (st : EReal × Option α) (x : ℝ × α) :
    (updLt st x).1 = min st.1 ((x.1 : EReal)) := by
  unfold updLt
  split_ifs with h
  · exact (min_eq_right (le_of_lt h)).symm
  · exact (min_eq_left (not_lt.mp h)).symm

theorem updLe_fst {α : Type} (st : EReal × Option α) (x : ℝ × α) :
    (updLe st x).1 = min st.1 ((x.1 : EReal)) := by
  unfold updLe
  split_ifs with h
  · exact (min_eq_right h).symm
  · exact (min_eq_left (le_of_lt (not_le.mp h))).symm

theorem foldl_updLt_fst {α : Type} (l : List (ℝ × α)) (st : EReal × Option α) :
    (l.foldl updLt st).1 = min st.1 (valsMin l) := by
  induction l generalizing st with
  | nil => rw [valsMin_nil, min_eq_left le_top]; rfl
  | cons x l ih =>
      show (l.foldl updLt (updLt st x)).1 = _
      rw [ih, updLt_fst, valsMin_cons, min_assoc]

theorem foldl_updLe_fst {α : Type} (l : List (ℝ × α)) (st : EReal × Option α) :
    (l.foldl updLe st).1 = min st.1 (valsMin l) := by
  induction l generalizing st with
  | nil => rw [valsMin_nil, min_eq_left le_top]; rfl
  | cons x l ih =>
      show (l.foldl updLe (updLe st x)).1 = _
      rw [ih, updLe_fst, valsMin_cons, min_assoc]

theorem foldl_updLt_snd {α : Type} (l : List (ℝ × α)) (st : EReal × Option α) :
    (l.foldl updLt st).2 = if valsMin l < st.1 then findVal l (valsMin l) else st.2 := by
  induction l generalizing st with
  | nil =>
      rw [valsMin_nil, if_neg (lt_irrefl ⊤ |> fun h hc => absurd (lt_of_lt_of_le hc le_top) h)]
      rfl
  | cons x l ih =>
      show (l.foldl updLt (updLt st x)).2 = _
      by_cases hx : (x.1 : EReal) < st.1
      · have hupd : updLt st x = (((x.1 : EReal)), some x.2) := by unfold updLt; rw [if_pos hx]
        rw [hupd, ih]
        have hcondR : valsMin (x :: l) < st.1 := by
          rw [valsMin_cons]
          exact lt_of_le_of_lt (min_le_left _ _) hx
        rw [if_pos hcondR]
        by_cases hvl : valsMin l < (x.1 : EReal)
        · rw [if_pos hvl]
          have hmeq : valsMin (x :: l) = valsMin l := by
            rw [valsMin_cons, min_eq_right (le_of_lt hvl)]
          rw [hmeq, findVal_cons, if_neg (fun hcontra => absurd (hcontra ▸ hvl) (lt_irrefl _))]
        · rw [if_neg hvl]
          have hmeq : valsMin (x :: l) = (x.1 : EReal) := by
            rw [valsMin_cons, min_eq_left (not_lt.mp hvl)]
          rw [hmeq, findVal_cons, if_pos rfl]
      · have hupd : updLt st x = st := by unfold updLt; rw [if_neg hx]
        rw [hupd, ih]
        have hxge : st.1 ≤ (x.1 : EReal) := not_lt.mp hx
        by_cases hvl : valsMin l < st.1
        · rw [if_pos hvl]
          have hmeq : valsMin (x :: l) = valsMin l := by
            rw [valsMin_cons, min_eq_right (le_of_lt (lt_of_lt_of_le hvl hxge))]
          rw [if_pos (hmeq ▸ hvl), hmeq, findVal_cons,
            if_neg (fun hc => absurd (hc ▸ lt_of_lt_of_le hvl hxge) (lt_irrefl _))]
        · rw [if_neg hvl, if_neg (by
            rw [valsMin_cons]
            intro hc
            rcases min_lt_iff.mp hc with h | h
            · exact hx h
            · exact hvl h)]

theorem foldl_updLe_snd {α : Type} (l : List (ℝ × α)) (st : EReal × Option α) :
    (l.foldl updLe st).2 =
      if valsMin l < ⊤ ∧ valsMin l ≤ st.1 then lastVal l (valsMin l) else st.2 := by
  induction l generalizing st with
  | nil =>
      rw [valsMin_nil, if_neg (fun hc => absurd hc.1 (lt_irrefl ⊤))]
      rfl
  | cons x l ih =>
      show (l.foldl updLe (updLe st x)).2 = _
      have hxtop : (x.1 : EReal) < ⊤ := EReal.coe_lt_top x.1
      by_cases hx : (x.1 : EReal) ≤ st.1
      · have hupd : updLe st x = (((x.1 : EReal)), some x.2) := by unfold updLe; rw [if_pos hx]
        rw [hupd, ih]
        have hcondR : valsMin (x :: l) < ⊤ ∧ valsMin (x :: l) ≤ st.1 := by
          rw [valsMin_cons]
          exact ⟨lt_of_le_of_lt (min_le_left _ _) hxtop,
            le_trans (min_le_left _ _) hx⟩
        rw [if_pos hcondR]
        by_cases hvl : valsMin l ≤ (x.1 : EReal)
        · have hvtop : valsMin l < ⊤ := lt_of_le_of_lt hvl hxtop
          rw [if_pos ⟨hvtop, hvl⟩]
          have hmeq : valsMin (x :: l) = valsMin l := by
            rw [valsMin_cons, min_eq_right hvl]
          rw [hmeq, lastVal_cons]
          by_cases hxv : (x.1 : EReal) = valsMin l
          · rw [if_pos hxv]
            obtain ⟨r, hr⟩ := lastVal_isSome l hvtop
            rw [hr]
            rfl
          · rw [if_neg hxv]
        · rw [if_neg (fun hc => absurd hc.2 hvl)]
          have hlt : (x.1 : EReal) < valsMin l := not_le.mp hvl
          have hmeq : valsMin (x :: l) = (x.1 : EReal) := by
            rw [valsMin_cons, min_eq_left (le_of_lt hlt)]
          rw [hmeq, lastVal_cons, if_pos rfl, lastVal_none_of_lt l _ hlt]
          rfl
      · have hupd : updLe st x = st := by unfold updLe; rw [if_neg hx]
        rw [hupd, ih]
        have hxgt : st.1 < (x.1 : EReal) := not_le.mp hx
        by_cases hvl : valsMin l ≤ st.1
        · have hvtop : valsMin l < ⊤ := lt_of_le_of_lt hvl (lt_of_lt_of_le hxgt le_top)
          rw [if_pos ⟨hvtop, hvl⟩]
          have hmeq : valsMin (x :: l) = valsMin l := by
            rw [valsMin_cons, min_eq_right (le_of_lt (lt_of_le_of_lt hvl hxgt))]
          rw [if_pos (by rw [hmeq]; exact ⟨hvtop, hvl⟩), hmeq, lastVal_cons,
            if_neg (fun hc => absurd (hc ▸ lt_of_le_of_lt hvl hxgt) (lt_irrefl _))]
        · rw [if_neg (fun hc => absurd hc.2 hvl), if_neg (by
            rw [valsMin_cons]
            intro hc
            rcases min_le_iff.mp hc.2 with h | h
            · exact hx h
            · exact hvl h)]



theorem selectRoot_eq_some_iff (tmin tmax : EReal) (r1 r2 t : ℝ) :
    selectRoot tmin tmax r1 r2 = some t ↔
      ((t = r1 ∨ t = r2) ∧ (tmin < (t : EReal) ∧ (t : EReal) < tmax) ∧
        ((tmin < (r1 : EReal) ∧ (r1 : EReal) < tmax) → t ≤ r1) ∧
        ((tmin < (r2 : EReal) ∧ (r2 : EReal) < tmax) → t ≤ r2)) := by
  constructor
  · intro hsel
    have hne : ¬(selectRoot tmin tmax r1 r2 = none) := by rw [hsel]; simp
    have hins : (tmin < (r1 : EReal) ∧ (r1 : EReal) < tmax) ∨
        (tmin < (r2 : EReal) ∧ (r2 : EReal) < tmax) := by
      by_contra hc
      rw [not_or] at hc
      exact hne ((selectRoot_none_iff tmin tmax r1 r2).mpr ⟨hc.1, hc.2⟩)
    obtain ⟨t', hsel', hor, hin, h1, h2⟩ := selectRoot_some tmin tmax r1 r2 hins
    have : t' = t := by rw [hsel] at hsel'; exact (Option.some.inj hsel').symm
    subst this
    exact ⟨hor, hin, h1, h2⟩
  · rintro ⟨hor, hin, h1, h2⟩
    have hins : (tmin < (r1 : EReal) ∧ (r1 : EReal) < tmax) ∨
        (tmin < (r2 : EReal) ∧ (r2 : EReal) < tmax) := by
      rcases hor with h | h
      · exact Or.inl (h ▸ hin)
      · exact Or.inr (h ▸ hin)
    obtain ⟨t', hsel', hor', hin', h1', h2'⟩ := selectRoot_some tmin tmax r1 r2 hins
    have hle : t ≤ t' := by
      rcases hor' with h | h
      · exact h ▸ h1 (h ▸ hin')
      · exact h ▸ h2 (h ▸ hin')
    have hge : t' ≤ t := by
      rcases hor with h | h
      · exact h ▸ h1' (h ▸ hin)
      · exact h ▸ h2' (h ▸ hin)
    rw [hsel', le_antisymm hge hle]

theorem selectRoot_window (tmin c : EReal) (r1 r2 t : ℝ) :
    selectRoot tmin c r1 r2 = some t ↔
      (selectRoot tmin ⊤ r1 r2 = some t ∧ (t : EReal) < c) := by
  rw [selectRoot_eq_some_iff, selectRoot_eq_some_iff]
  constructor
  · rintro ⟨hor, ⟨hl, hh⟩, h1, h2⟩
    refine ⟨⟨hor, ⟨hl, EReal.coe_lt_top t⟩, ?_, ?_⟩, hh⟩
    · rintro ⟨hr1, -⟩
      by_cases hc : (r1 : EReal) < c
      · exact h1 ⟨hr1, hc⟩
      · have : (t : EReal) < (r1 : EReal) := lt_of_lt_of_le hh (not_lt.mp hc)
        exact le_of_lt (EReal.coe_lt_coe_iff.mp this)
    · rintro ⟨hr2, -⟩
      by_cases hc : (r2 : EReal) < c
      · exact h2 ⟨hr2, hc⟩
      · have : (t : EReal) < (r2 : EReal) := lt_of_lt_of_le hh (not_lt.mp hc)
        exact le_of_lt (EReal.coe_lt_coe_iff.mp this)
  · rintro ⟨⟨hor, ⟨hl, -⟩, h1, h2⟩, hc⟩
    exact ⟨hor, ⟨hl, hc⟩,
      fun hin => h1 ⟨hin.1, EReal.coe_lt_top r1⟩,
      fun hin => h2 ⟨hin.1, EReal.coe_lt_top r2⟩⟩

theorem sphereHit_window {μ : Type} (s : Sphere μ) (ray : Ray) (tmin c : EReal)
    (h : HitRecord μ) :
    Sphere.hit s ray tmin c = some h ↔
      (Sphere.hit s ray tmin ⊤ = some h ∧ (h.t : EReal) < c) := by
  simp only [Sphere.hit]
  by_cases hdisc : ((ray.origin - s.center).dot ray.direction) *
      ((ray.origin - s.center).dot ray.direction) -
      ray.direction.lengthSquared *
        ((ray.origin - s.center).lengthSquared - s.radius ^ 2) < 0
  · rw [if_pos hdisc, if_pos hdisc]
    simp
  · rw [if_neg hdisc, if_neg hdisc]
    rw [Option.map_eq_some', Option.map_eq_some']
    constructor
    · rintro ⟨a, hsel, hrec⟩
      obtain ⟨hsel', hlt⟩ := (selectRoot_window tmin c _ _ a).mp hsel
      have hta : h.t = a := by rw [← hrec]
      exact ⟨⟨a, hsel', hrec⟩, hta ▸ hlt⟩
    · rintro ⟨⟨a, hsel, hrec⟩, hlt⟩
      have hta : h.t = a := by rw [← hrec]
      exact ⟨a, (selectRoot_window tmin c _ _ a).mpr ⟨hsel, hta ▸ hlt⟩, hrec⟩



theorem triangleIntersect_window {μ : Type} (tri : Triangle μ) (ray : Ray) (tmin c : EReal)
    (h : HitRecord μ) :
    Triangle.intersect tri ray tmin c = some h ↔
      (Triangle.intersect tri ray tmin ⊤ = some h ∧ (h.t : EReal) ≤ c) := by
  simp only [Triangle.intersect]
  by_cases hp : -(1e-8 : ℝ) < ((tri.v1 - tri.v0).cross (tri.v2 - tri.v0)).dot ray.direction ∧
      ((tri.v1 - tri.v0).cross (tri.v2 - tri.v0)).dot ray.direction < (1e-8 : ℝ)
  · rw [if_pos hp, if_pos hp]
    simp
  · rw [if_neg hp, if_neg hp]
    set T : ℝ := (((tri.v1 - tri.v0).cross (tri.v2 - tri.v0)).dot ray.origin +
        ((tri.v1 - tri.v0).cross (tri.v2 - tri.v0)).dot tri.v0) /
        (((tri.v1 - tri.v0).cross (tri.v2 - tri.v0)).dot ray.direction) with hT
    by_cases hlow : ((T : ℝ) : EReal) < tmin
    · rw [if_pos (Or.inl hlow), if_pos (Or.inl hlow)]
      simp
    · have htopneg : ¬(((T : ℝ) : EReal) < tmin ∨ (⊤ : EReal) < ((T : ℝ) : EReal)) :=
        fun hor => hor.elim hlow (fun hb => absurd hb not_top_lt)
      rw [if_neg htopneg]
      by_cases hc : c < ((T : ℝ) : EReal)
      · rw [if_pos (Or.inr hc)]
        constructor
        · intro hx
          exact absurd hx (by simp)
        · rintro ⟨hsome, hle⟩
          exfalso
          split_ifs at hsome with e0 e1 e2 <;> try simp at hsome
          have hht : h.t = T := by rw [← hsome]
          rw [hht] at hle
          exact absurd hle (not_le.mpr hc)
      · rw [if_neg (fun hor => hor.elim hlow hc)]
        constructor
        · intro hx
          have hx2 := hx
          refine ⟨hx, ?_⟩
          split_ifs at hx2 with e0 e1 e2 <;> try simp at hx2
          have hht : h.t = T := by rw [← hx2]
          rw [hht]
          exact not_lt.mp hc
        · rintro ⟨hx, -⟩
          exact hx



theorem meshHit_eq_fold {μ : Type} (m : Mesh μ) (ray : Ray) (tmin tmax : EReal) :
    Mesh.hit m ray tmin tmax =
      ((meshTriCands m ray tmin tmax).foldl updLt ((⊤ : EReal), (none : Option (HitRecord μ)))).2 := by
  unfold Mesh.hit meshTriCands
  suffices key : ∀ (l : List (Triangle μ)) (st : EReal × Option (HitRecord μ)),
      l.foldl (fun st tri =>
        match Triangle.intersect tri ray tmin tmax with
        | some h =>
            if (h.t : EReal) < st.1 then
              ((h.t : EReal), some ⟨h.position, tri.normal, h.t, tri.material⟩)
            else st
        | none => st) st =
      (l.filterMap (fun tri => (Triangle.intersect tri ray tmin tmax).map
        (fun h => (h.t, (⟨h.position, tri.normal, h.t, tri.material⟩ : HitRecord μ))))).foldl
          updLt st by
    rw [key m.triangles (⊤, none)]
  intro l
  induction l with
  | nil => intro st; rfl
  | cons tri l ih =>
      intro st
      rw [List.foldl_cons, List.filterMap_cons]
      rcases htri : Triangle.intersect tri ray tmin tmax with _ | hh
      · simp only [htri, Option.map_none']
        exact ih st
      · simp only [htri, Option.map_some']
        rw [List.foldl_cons, ih]
        rfl

theorem meshTriCands_window {μ : Type} (m : Mesh μ) (ray : Ray) (tmin c : EReal) :
    meshTriCands m ray tmin c =
      (meshTriCands m ray tmin ⊤).filter (fun x => decide ((x.1 : EReal) ≤ c)) := by
  unfold meshTriCands
  induction m.triangles with
  | nil => rfl
  | cons tri l ih =>
      rw [List.filterMap_cons, List.filterMap_cons]
      rcases htop : Triangle.intersect tri ray tmin ⊤ with _ | h
      · have hc : Triangle.intersect tri ray tmin c = none := by
          rcases hcc : Triangle.intersect tri ray tmin c with _ | h2
          · rfl
          · obtain ⟨habs, -⟩ := (triangleIntersect_window tri ray tmin c h2).mp hcc
            rw [htop] at habs
            exact absurd habs (by simp)
        simp only [hc, htop, Option.map_none']
        exact ih
      · by_cases hle : (h.t : EReal) ≤ c
        · have hcc : Triangle.intersect tri ray tmin c = some h :=
            (triangleIntersect_window tri ray tmin c h).mpr ⟨htop, hle⟩
          simp only [hcc, htop, Option.map_some']
          rw [List.filter_cons_of_pos (by simp [hle])]
          rw [ih]
        · have hcc : Triangle.intersect tri ray tmin c = none := by
            rcases hcx : Triangle.intersect tri ray tmin c with _ | h2
            · rfl
            · obtain ⟨heq, hle2⟩ := (triangleIntersect_window tri ray tmin c h2).mp hcx
              rw [htop] at heq
              have : h2 = h := (Option.some.inj heq).symm
              exact absurd (this ▸ hle2) hle
          simp only [hcc, htop, Option.map_some']
          rw [List.filter_cons_of_neg (by simp [hle])]
          exact ih

theorem findVal_filter {α : Type} (l : List (ℝ × α)) (c v : EReal) (hv : v ≤ c) :
    findVal (l.filter (fun x => decide ((x.1 : EReal) ≤ c))) v = findVal l v := by
  induction l with
  | nil => rfl
  | cons x l ih =>
      by_cases hxv : (x.1 : EReal) = v
      · rw [List.filter_cons_of_pos (by simp [hxv ▸ hv]), findVal_cons, findVal_cons,
          if_pos hxv, if_pos hxv]
      · by_cases hxc : (x.1 : EReal) ≤ c
        · rw [List.filter_cons_of_pos (by simp [hxc]), findVal_cons, findVal_cons,
            if_neg hxv, if_neg hxv]
          exact ih
        · rw [List.filter_cons_of_neg (by simp [hxc]), findVal_cons, if_neg hxv]
          exact ih

theorem lastVal_filter {α : Type} (l : List (ℝ × α)) (c v : EReal) (hv : v ≤ c) :
    lastVal (l.filter (fun x => decide ((x.1 : EReal) ≤ c))) v = lastVal l v := by
  induction l with
  | nil => rfl
  | cons x l ih =>
      by_cases hxv : (x.1 : EReal) = v
      · rw [List.filter_cons_of_pos (by simp [hxv ▸ hv]), lastVal_cons, lastVal_cons,
          if_pos hxv, if_pos hxv, ih]
      · by_cases hxc : (x.1 : EReal) ≤ c
        · rw [List.filter_cons_of_pos (by simp [hxc]), lastVal_cons, lastVal_cons,
            if_neg hxv, if_neg hxv]
          exact ih
        · rw [List.filter_cons_of_neg (by simp [hxc]), lastVal_cons, if_neg hxv]
          exact ih

theorem valsMin_filter {α : Type} (l : List (ℝ × α)) (c : EReal) (hc : valsMin l ≤ c) :
    valsMin (l.filter (fun x => decide ((x.1 : EReal) ≤ c))) = valsMin l := by
  refine le_antisymm ?_ ?_
  · by_cases htop : valsMin l < ⊤
    · obtain ⟨x, hx, hv⟩ := valsMin_attained l htop
      have hmem : x ∈ l.filter (fun x => decide ((x.1 : EReal) ≤ c)) :=
        List.mem_filter.mpr ⟨hx, by simp [hv ▸ hc]⟩
      exact le_trans (valsMin_le _ x hmem) (le_of_eq hv)
    · exact le_trans le_top (le_of_eq (not_lt.mp htop |> fun h => le_antisymm le_top h |>.symm))
  · exact le_valsMin _ _ (fun x hx => valsMin_le l x (List.mem_of_mem_filter hx))

theorem valsMin_filter_nil {α : Type} (l : List (ℝ × α)) (c : EReal) (hc : c < valsMin l) :
    l.filter (fun x => decide ((x.1 : EReal) ≤ c)) = [] := by
  rw [List.filter_eq_nil_iff]
  intro x hx
  simp only [decide_eq_true_eq]
  intro hle
  exact absurd (lt_of_le_of_lt (le_trans (valsMin_le l x hx) hle) hc) (lt_irrefl _)



theorem meshTriCands_t_inv {μ : Type} (m : Mesh μ) (ray : Ray) (tmin tmax : EReal)
    (x : ℝ × HitRecord μ) (hx : x ∈ meshTriCands m ray tmin tmax) : x.1 = x.2.t := by
  unfold meshTriCands at hx
  obtain ⟨tri, -, hmap⟩ := List.mem_filterMap.mp hx
  rcases htri : Triangle.intersect tri ray tmin tmax with _ | h
  · rw [htri] at hmap
    exact absurd hmap (by simp)
  · rw [htri] at hmap
    simp only [Option.map_some', Option.some.injEq] at hmap
    rw [← hmap]

theorem findVal_mem {α : Type} (l : List (ℝ × α)) (v : EReal) (r : α)
    (h : findVal l v = some r) : ∃ x ∈ l, x.2 = r ∧ (x.1 : EReal) = v := by
  unfold findVal at h
  rcases hf : l.find? (fun x => decide ((x.1 : EReal) = v)) with _ | x
  · rw [hf] at h
    exact absurd h (by simp)
  · rw [hf] at h
    simp only [Option.map_some', Option.some.injEq] at h
    have hmem : x ∈ l := List.mem_of_find?_eq_some hf
    have hpred := List.find?_some hf
    simp only [decide_eq_true_eq] at hpred
    exact ⟨x, hmem, h, hpred⟩

theorem lastVal_mem {α : Type} (l : List (ℝ × α)) (v : EReal) (r : α)
    (h : lastVal l v = some r) : ∃ x ∈ l, x.2 = r ∧ (x.1 : EReal) = v := by
  unfold lastVal at h
  rcases hf : (l.filter (fun x => decide ((x.1 : EReal) = v))).getLast? with _ | x
  · rw [hf] at h
    exact absurd h (by simp)
  · rw [hf] at h
    simp only [Option.map_some', Option.some.injEq] at h
    have hmem : x ∈ l.filter (fun x => decide ((x.1 : EReal) = v)) := by
      obtain ⟨hne, hx⟩ := List.mem_getLast?_eq_getLast (Option.mem_def.mpr hf)
      rw [hx]
      exact List.getLast_mem hne
    have hmem2 := List.mem_filter.mp hmem
    simp only [decide_eq_true_eq] at hmem2
    exact ⟨x, hmem2.1, h, hmem2.2⟩

theorem meshHit_top {μ : Type} (m : Mesh μ) (ray : Ray) (tmin : EReal) :
    Mesh.hit m ray tmin ⊤ =
      (if valsMin (meshTriCands m ray tmin ⊤) < ⊤ then
        findVal (meshTriCands m ray tmin ⊤) (valsMin (meshTriCands m ray tmin ⊤))
      else none) := by
  rw [meshHit_eq_fold, foldl_updLt_snd]

theorem meshHit_t_eq_valsMin {μ : Type} (m : Mesh μ) (ray : Ray) (tmin : EReal)
    (h : HitRecord μ) (hh : Mesh.hit m ray tmin ⊤ = some h) :
    (h.t : EReal) = valsMin (meshTriCands m ray tmin ⊤) := by
  rw [meshHit_top] at hh
  split_ifs at hh with htop
  · obtain ⟨x, hx, hr, hv⟩ := findVal_mem _ _ _ hh
    rw [← hv, ← hr]
    rw [← meshTriCands_t_inv m ray tmin ⊤ x hx]

theorem meshHit_window {μ : Type} (m : Mesh μ) (ray : Ray) (tmin c : EReal)
    (h : HitRecord μ) :
    Mesh.hit m ray tmin c = some h ↔
      (Mesh.hit m ray tmin ⊤ = some h ∧ (h.t : EReal) ≤ c) := by
  rw [meshHit_eq_fold, foldl_updLt_snd, meshHit_top, meshTriCands_window m ray tmin c]
  by_cases hle : valsMin (meshTriCands m ray tmin ⊤) ≤ c
  · rw [valsMin_filter _ _ hle, findVal_filter _ _ _ hle]
    constructor
    · intro hx
      split_ifs at hx with htop
      · refine ⟨by rw [if_pos htop]; exact hx, ?_⟩
        obtain ⟨x, hxm, hr, hv⟩ := findVal_mem _ _ _ hx
        rw [← hr, ← meshTriCands_t_inv m ray tmin ⊤ x hxm, hv]
        exact hle
    · rintro ⟨hx, -⟩
      split_ifs at hx with htop
      rw [if_pos htop]
      exact hx
  · have hlt : c < valsMin (meshTriCands m ray tmin ⊤) := not_le.mp hle
    rw [valsMin_filter_nil _ _ hlt]
    constructor
    · intro hx
      rw [valsMin_nil] at hx
      rw [if_neg (lt_irrefl ⊤)] at hx
      exact absurd hx (by simp)
    · rintro ⟨hx, hlec⟩
      exfalso
      split_ifs at hx with htop
      · obtain ⟨x, hxm, hr, hv⟩ := findVal_mem _ _ _ hx
        have : (h.t : EReal) = valsMin (meshTriCands m ray tmin ⊤) := by
          rw [← hr, ← meshTriCands_t_inv m ray tmin ⊤ x hxm, hv]
        rw [this] at hlec
        exact absurd (lt_of_le_of_lt hlec hlt) (lt_irrefl _)



theorem sphereFold_eq {μ : Type} (ray : Ray) (l : List (Sphere μ))
    (st : EReal × Option (HitRecord μ)) :
    l.foldl (fun st s =>
      match Sphere.hit s ray ((0.001 : ℝ) : EReal) st.1 with
      | some h => ((h.t : EReal), some h)
      | none => st) st =
    (l.filterMap (fun s => (Sphere.hit s ray ((0.001 : ℝ) : EReal) ⊤).map
      (fun h => (h.t, h)))).foldl updLt st := by
  induction l generalizing st with
  | nil => rfl
  | cons s l ih =>
      rw [List.foldl_cons, List.filterMap_cons]
      rcases htop : Sphere.hit s ray ((0.001 : ℝ) : EReal) ⊤ with _ | h
      · have hcur : Sphere.hit s ray ((0.001 : ℝ) : EReal) st.1 = none := by
          rcases hx : Sphere.hit s ray ((0.001 : ℝ) : EReal) st.1 with _ | h2
          · rfl
          · obtain ⟨habs, -⟩ := (sphereHit_window s ray _ st.1 h2).mp hx
            rw [htop] at habs
            exact absurd habs (by simp)
        simp only [hcur, htop, Option.map_none']
        exact ih st
      · simp only [htop, Option.map_some']
        rw [List.foldl_cons]
        rcases hcur : Sphere.hit s ray ((0.001 : ℝ) : EReal) st.1 with _ | h2
        · have hnlt : ¬((h.t : EReal) < st.1) := by
            intro hlt
            have := (sphereHit_window s ray _ st.1 h).mpr ⟨htop, hlt⟩
            rw [hcur] at this
            exact absurd this (by simp)
          have hupd : updLt st (h.t, h) = st := by unfold updLt; rw [if_neg hnlt]
          rw [hupd]
          exact ih st
        · obtain ⟨htop2, hlt⟩ := (sphereHit_window s ray _ st.1 h2).mp hcur
          rw [htop] at htop2
          have hh : h = h2 := Option.some.inj htop2
          subst hh
          have hupd : updLt st (h.t, h) = ((h.t : EReal), some h) := by
            unfold updLt; rw [if_pos hlt]
          rw [hupd]
          exact ih _

theorem meshFold_eq {μ : Type} (ray : Ray) (l : List (Mesh μ))
    (st : EReal × Option (HitRecord μ)) :
    l.foldl (fun st m =>
      match Mesh.hit m ray ((0.001 : ℝ) : EReal) st.1 with
      | some h => ((h.t : EReal), some h)
      | none => st) st =
    (l.filterMap (fun m => (Mesh.hit m ray ((0.001 : ℝ) : EReal) ⊤).map
      (fun h => (h.t, h)))).foldl updLe st := by
  induction l generalizing st with
  | nil => rfl
  | cons m l ih =>
      rw [List.foldl_cons, List.filterMap_cons]
      rcases htop : Mesh.hit m ray ((0.001 : ℝ) : EReal) ⊤ with _ | h
      · have hcur : Mesh.hit m ray ((0.001 : ℝ) : EReal) st.1 = none := by
          rcases hx : Mesh.hit m ray ((0.001 : ℝ) : EReal) st.1 with _ | h2
          · rfl
          · obtain ⟨habs, -⟩ := (meshHit_window m ray _ st.1 h2).mp hx
            rw [htop] at habs
            exact absurd habs (by simp)
        simp only [hcur, htop, Option.map_none']
        exact ih st
      · simp only [htop, Option.map_some']
        rw [List.foldl_cons]
        rcases hcur : Mesh.hit m ray ((0.001 : ℝ) : EReal) st.1 with _ | h2
        · have hnle : ¬((h.t : EReal) ≤ st.1) := by
            intro hle
            have := (meshHit_window m ray _ st.1 h).mpr ⟨htop, hle⟩
            rw [hcur] at this
            exact absurd this (by simp)
          have hupd : updLe st (h.t, h) = st := by unfold updLe; rw [if_neg hnle]
          rw [hupd]
          exact ih st
        · obtain ⟨htop2, hle⟩ := (meshHit_window m ray _ st.1 h2).mp hcur
          rw [htop] at htop2
          have hh : h = h2 := Option.some.inj htop2
          subst hh
          have hupd : updLe st (h.t, h) = ((h.t : EReal), some h) := by
            unfold updLe; rw [if_pos hle]
          rw [hupd]
          exact ih _

theorem worldHit_eq_folds {μ : Type} (w : World μ) (ray : Ray) :
    World.hit w ray =
      ((meshCands w ray).foldl updLe
        ((sphereCands w ray).foldl updLt ((⊤ : EReal), (none : Option (HitRecord μ))))).2 := by
  unfold World.hit meshCands sphereCands
  dsimp only
  rw [sphereFold_eq, meshFold_eq]

theorem worldHitMeshesFirst_eq_folds {μ : Type} (w : World μ) (ray : Ray) :
    World.hitMeshesFirst w ray =
      ((sphereCands w ray).foldl updLt
        ((meshCands w ray).foldl updLe ((⊤ : EReal), (none : Option (HitRecord μ))))).2 := by
  unfold World.hitMeshesFirst meshCands sphereCands
  dsimp only
  rw [meshFold_eq, sphereFold_eq]



theorem findVal_isSome {α : Type} (l : List (ℝ × α)) (hl : valsMin l < ⊤) :
    ∃ r, findVal l (valsMin l) = some r := by
  obtain ⟨x, hx, hv⟩ := valsMin_attained l hl
  unfold findVal
  rcases hf : l.find? (fun y => decide ((y.1 : EReal) = valsMin l)) with _ | y
  · exfalso
    have := List.find?_eq_none.mp hf x hx
    simp [hv] at this
  · exact ⟨y.2, by rw [hf]; rfl⟩

theorem valsMin_eq_top_iff {α : Type} (l : List (ℝ × α)) : valsMin l = ⊤ ↔ l = [] := by
  constructor
  · intro h
    rcases l with _ | ⟨x, l⟩
    · rfl
    · exact absurd h (ne_of_lt (valsMin_lt_top (x :: l) (by simp)))
  · intro h
    rw [h, valsMin_nil]

theorem worldHit_explicit {μ : Type} (w : World μ) (ray : Ray) :
    World.hit w ray =
      (if valsMin (meshCands w ray) < ⊤ ∧
          valsMin (meshCands w ray) ≤ valsMin (sphereCands w ray) then
        lastVal (meshCands w ray) (valsMin (meshCands w ray))
      else if valsMin (sphereCands w ray) < ⊤ then
        findVal (sphereCands w ray) (valsMin (sphereCands w ray))
      else none) := by
  rw [worldHit_eq_folds, foldl_updLe_snd, foldl_updLt_fst, foldl_updLt_snd]
  dsimp only
  rw [min_eq_right le_top]

theorem worldHitMeshesFirst_explicit {μ : Type} (w : World μ) (ray : Ray) :
    World.hitMeshesFirst w ray =
      (if valsMin (sphereCands w ray) < valsMin (meshCands w ray) then
        findVal (sphereCands w ray) (valsMin (sphereCands w ray))
      else if valsMin (meshCands w ray) < ⊤ then
        lastVal (meshCands w ray) (valsMin (meshCands w ray))
      else none) := by
  rw [worldHitMeshesFirst_eq_folds, foldl_updLt_snd, foldl_updLe_fst, foldl_updLe_snd]
  dsimp only
  rw [min_eq_right le_top]
  simp only [le_top, and_true]

/-- C4: the result of `World::hit` — the full hit record, hence the same
`t`, position, normal and material — is unchanged when the traversal
searches meshes before spheres instead of spheres before meshes.  (The
strict sphere window and the inclusive mesh window make the two orders
agree even on exact ties.) -/
theorem claim4_traversal_order_irrelevant {μ : Type} (w : World μ) (ray : Ray) :
    World.hit w ray = World.hitMeshesFirst w ray := by
  rw [worldHit_explicit, worldHitMeshesFirst_explicit]
  set vs := valsMin (sphereCands w ray) with hvs
  set vm := valsMin (meshCands w ray) with hvm
  by_cases h1 : vm < ⊤ ∧ vm ≤ vs
  · rw [if_pos h1, if_neg (not_lt.mpr h1.2), if_pos h1.1]
  · rw [if_neg h1]
    by_cases h2 : vs < vm
    · rw [if_pos h2, if_pos (lt_of_lt_of_le h2 le_top)]
    · rw [if_neg h2]
      have hle : vm ≤ vs := not_lt.mp h2
      have hvmtop : ¬(vm < ⊤) := fun hc => h1 ⟨hc, hle⟩
      have hvmeq : vm = ⊤ := le_antisymm le_top (not_lt.mp hvmtop)
      have hvseq : vs = ⊤ := le_antisymm le_top (hvmeq ▸ hle)
      rw [if_neg hvmtop, if_neg (by rw [hvseq]; exact lt_irrefl ⊤)]

theorem worldCands_t_inv {μ : Type} (w : World μ) (ray : Ray)
    (x : ℝ × HitRecord μ) (hx : x ∈ worldCands w ray) : x.1 = x.2.t := by
  unfold worldCands at hx
  rcases List.mem_append.mp hx with hs | hm
  · unfold sphereCands at hs
    obtain ⟨s, -, hmap⟩ := List.mem_filterMap.mp hs
    rcases hhit : Sphere.hit s ray ((0.001 : ℝ) : EReal) ⊤ with _ | h
    · rw [hhit] at hmap
      exact absurd hmap (by simp)
    · rw [hhit] at hmap
      simp only [Option.map_some', Option.some.injEq] at hmap
      rw [← hmap]
  · unfold meshCands at hm
    obtain ⟨m, -, hmap⟩ := List.mem_filterMap.mp hm
    rcases hhit : Mesh.hit m ray ((0.001 : ℝ) : EReal) ⊤ with _ | h
    · rw [hhit] at hmap
      exact absurd hmap (by simp)
    · rw [hhit] at hmap
      simp only [Option.map_some', Option.some.injEq] at hmap
      rw [← hmap]

/-- C3 (amended): for every ray and world, `World::hit` returns a hit
record that is one of the primitive candidates — each sphere's hit on
the open interval `(0.001, ∞)` and each mesh's hit on the closed-below,
closed-above-at-the-running-bound interval, i.e. triangles with
`t ≥ 0.001` — whose `t` is minimal among all candidate values; and it
returns nothing exactly when there is no candidate.  (The original
claim's strict `t > 0.001` fails for triangles: their interval test is
inclusive, see the counterexample.) -/
theorem claim3_world_nearest_hit {μ : Type} (w : World μ) (ray : Ray) :
    (∀ h, World.hit w ray = some h →
      (∃ x ∈ worldCands w ray, x.2 = h ∧ x.1 = h.t) ∧
      ∀ x ∈ worldCands w ray, h.t ≤ x.1)
    ∧ (World.hit w ray = none ↔ worldCands w ray = []) := by
  have hWC : worldCands w ray = sphereCands w ray ++ meshCands w ray := rfl
  constructor
  · intro h hsome
    rw [worldHit_explicit] at hsome
    by_cases h1 : valsMin (meshCands w ray) < ⊤ ∧
        valsMin (meshCands w ray) ≤ valsMin (sphereCands w ray)
    · rw [if_pos h1] at hsome
      obtain ⟨x, hxm, hx2, hx1⟩ := lastVal_mem _ _ _ hsome
      have hmem : x ∈ worldCands w ray := by
        rw [hWC]; exact List.mem_append_right _ hxm
      have hinv : x.1 = x.2.t := worldCands_t_inv w ray x hmem
      refine ⟨⟨x, hmem, hx2, by rw [hinv, hx2]⟩, ?_⟩
      intro y hy
      have hht : (h.t : EReal) = valsMin (meshCands w ray) := by
        rw [← hx2, ← hinv, hx1]
      have hbound : (h.t : EReal) ≤ (y.1 : EReal) := by
        rw [hht]
        rcases List.mem_append.mp (hWC ▸ hy) with hys | hym
        · exact le_trans h1.2 (valsMin_le _ y hys)
        · exact valsMin_le _ y hym
      exact EReal.coe_le_coe_iff.mp hbound
    · rw [if_neg h1] at hsome
      by_cases h2 : valsMin (sphereCands w ray) < ⊤
      · rw [if_pos h2] at hsome
        obtain ⟨x, hxm, hx2, hx1⟩ := findVal_mem _ _ _ hsome
        have hmem : x ∈ worldCands w ray := by
          rw [hWC]; exact List.mem_append_left _ hxm
        have hinv : x.1 = x.2.t := worldCands_t_inv w ray x hmem
        refine ⟨⟨x, hmem, hx2, by rw [hinv, hx2]⟩, ?_⟩
        intro y hy
        have hht : (h.t : EReal) = valsMin (sphereCands w ray) := by
          rw [← hx2, ← hinv, hx1]
        have hsm : valsMin (sphereCands w ray) ≤ valsMin (meshCands w ray) := by
          by_cases hm : valsMin (meshCands w ray) < ⊤
          · exact le_of_lt (not_le.mp (fun hc => h1 ⟨hm, hc⟩))
          · exact le_trans le_top (le_of_eq (le_antisymm le_top (not_lt.mp hm)).symm)
        have hbound : (h.t : EReal) ≤ (y.1 : EReal) := by
          rw [hht]
          rcases List.mem_append.mp (hWC ▸ hy) with hys | hym
          · exact valsMin_le _ y hys
          · exact le_trans hsm (valsMin_le _ y hym)
        exact EReal.coe_le_coe_iff.mp hbound
      · rw [if_neg h2] at hsome
        exact absurd hsome (by simp)
  · rw [worldHit_explicit]
    constructor
    · intro hn
      by_cases h1 : valsMin (meshCands w ray) < ⊤ ∧
          valsMin (meshCands w ray) ≤ valsMin (sphereCands w ray)
      · rw [if_pos h1] at hn
        obtain ⟨r, hr⟩ := lastVal_isSome _ h1.1
        rw [hr] at hn
        exact absurd hn (by simp)
      · rw [if_neg h1] at hn
        by_cases h2 : valsMin (sphereCands w ray) < ⊤
        · rw [if_pos h2] at hn
          obtain ⟨r, hr⟩ := findVal_isSome _ h2
          rw [hr] at hn
          exact absurd hn (by simp)
        · have hvs : valsMin (sphereCands w ray) = ⊤ := le_antisymm le_top (not_lt.mp h2)
          have hvm : valsMin (meshCands w ray) = ⊤ := by
            by_contra hc
            exact h1 ⟨lt_of_le_of_ne le_top (by
              intro he
              exact hc (le_antisymm le_top (le_of_eq he.symm)) ) |> fun x => x, by
              rw [hvs]; exact le_top⟩
          rw [hWC, (valsMin_eq_top_iff _).mp hvs, (valsMin_eq_top_iff _).mp hvm]
          rfl
    · intro hnil
      obtain ⟨hs, hm⟩ := List.append_eq_nil.mp (hWC ▸ hnil)
      have hvs : valsMin (sphereCands w ray) = ⊤ := by rw [hs]; rfl
      have hvm : valsMin (meshCands w ray) = ⊤ := by rw [hm]; rfl
      rw [if_neg (fun hc => absurd (hvm ▸ hc.1) (lt_irrefl ⊤)),
        if_neg (fun hc => absurd (hvs ▸ hc) (lt_irrefl ⊤))]



/-- C3 (counterexample to the claim as stated): a mesh triangle in the
plane `z = 0.001`, met by the ray from the origin plane `z = 0` along
`(0, 0, 1)`, has computed plane parameter exactly the `0.001` lower
bound (every arithmetic step at this input — the `(0, 0, 16)` cross
product, `d = 16 · 0.001`, `t = d / 16`, and the integer-valued edge
tests — is exact in `f32`, so the source computes the same values
bit-for-bit and compares `t < t_min` on two copies of its own `0.001`
constant).  The inclusive triangle interval test accepts it, so
`World::hit` returns a hit with `t = 0.001`, which is not greater than
`0.001` — while the claim, which only admits hits with `t > 0.001`,
would require `World::hit` to return nothing here. -/
theorem claim3_exact_boundary_counterexample :
    Option.map HitRecord.t
      ((World.mk ([] : List (Sphere Unit))
          [Mesh.mk [Triangle.new ⟨0, 0, 0.001⟩ ⟨4, 0, 0.001⟩ ⟨0, 4, 0.001⟩ ()]]).hit
        (Ray.mk ⟨1, 1, 0⟩ ⟨0, 0, 1⟩)) = some 0.001 ∧
    ¬((0.001 : ℝ) < 0.001) := by
  constructor
  · have htri : Triangle.intersect
        (Triangle.new ⟨0, 0, 0.001⟩ ⟨4, 0, 0.001⟩ ⟨0, 4, 0.001⟩ ())
        (Ray.mk ⟨1, 1, 0⟩ ⟨0, 0, 1⟩) ((0.001 : ℝ) : EReal) ⊤ =
        some ⟨⟨1, 1, 0.001⟩,
          (Triangle.new (⟨0, 0, 0.001⟩ : Vec3) ⟨4, 0, 0.001⟩ ⟨0, 4, 0.001⟩ ()).normal,
          0.001, ()⟩ := by
      norm_num [Triangle.intersect, Triangle.new, Vec3.cross, Vec3.dot, Ray.at, Vec3.smul,
        EReal.coe_lt_coe_iff]
    have hmesh : Mesh.hit
        (Mesh.mk [Triangle.new ⟨0, 0, 0.001⟩ ⟨4, 0, 0.001⟩ ⟨0, 4, 0.001⟩ ()])
        (Ray.mk ⟨1, 1, 0⟩ ⟨0, 0, 1⟩) ((0.001 : ℝ) : EReal) ⊤ =
        some ⟨⟨1, 1, 0.001⟩,
          (Triangle.new (⟨0, 0, 0.001⟩ : Vec3) ⟨4, 0, 0.001⟩ ⟨0, 4, 0.001⟩ ()).normal,
          0.001, ()⟩ := by
      unfold Mesh.hit
      rw [List.foldl_cons]
      rw [htri]
      simp only [EReal.coe_lt_top, if_pos]
      rfl
    unfold World.hit
    simp only [List.foldl_cons, List.foldl_nil, hmesh]
    rfl
  · norm_num



/-- Witness for the amended C3 on the one-sphere scene: the returned
record is a candidate with value `1`, minimal among all candidates. -/
theorem claim3_world_nearest_hit_witness :
    ((∃ x ∈ worldCands (World.mk [Sphere.mk ⟨0, 0, -2⟩ 1 ()] [])
        (Ray.mk ⟨0, 0, 0⟩ ⟨0, 0, -1⟩),
      x.2 = (⟨⟨0, 0, -1⟩, ⟨0, 0, 1⟩, 1, ()⟩ : HitRecord Unit) ∧ x.1 = 1) ∧
     ∀ x ∈ worldCands (World.mk [Sphere.mk ⟨0, 0, -2⟩ 1 ()] [])
        (Ray.mk ⟨0, 0, 0⟩ ⟨0, 0, -1⟩), (1 : ℝ) ≤ x.1) := by
  have := (claim3_world_nearest_hit (World.mk [Sphere.mk ⟨0, 0, -2⟩ 1 ()] [])
    (Ray.mk ⟨0, 0, 0⟩ ⟨0, 0, -1⟩)).1 ⟨⟨0, 0, -1⟩, ⟨0, 0, 1⟩, 1, ()⟩ worldS_hit_eval
  exact this



/-- Every error produced by the `parse_float` scanning loop is
`NotAF32`. -/
theorem floatScan_error (s : Str) (b : Bool) (e : ParseError)
    (h : floatScan s b = Except.error e) : e = ParseError.NotAF32 := by
  induction s generalizing b with
  | nil => exact absurd h (by rw [floatScan]; simp)
  | cons c cs ih =>
      rw [floatScan] at h
      split_ifs at h with hd hdot hfound
      · rcases hfs : floatScan cs b with e' | pr
        · rw [hfs] at h
          simp only [Except.error.injEq] at h
          cases h
          exact ih b hfs
        · rw [hfs] at h
          obtain ⟨body, rest⟩ := pr
          exact absurd h (by simp)
      · simp only [Except.error.injEq] at h
        exact h.symm
      · rcases hfs : floatScan cs true with e' | pr
        · rw [hfs] at h
          simp only [Except.error.injEq] at h
          cases h
          exact ih true hfs
        · rw [hfs] at h
          obtain ⟨body, rest⟩ := pr
          exact absurd h (by simp)

/-- C9: the parser reports failures as named kinds: (i) an input that,
after comments, does not begin with a `camera` declaration parses to
`MissingCamera`; (ii) unparsable trailing text after the declaration
loops parses to `WrongSyntax`; (iii) every `parse_float` failure is
`NotAF32` and (iv) every `parse_int` failure is `NotAI32` (malformed or
overflowing numeric literals); (v) `parse_world` maps an unreadable
world file to `CouldntOpenFile`. -/
theorem claim9_parser_error_kinds :
    (∀ (s s' : Str), skipComment s = Except.ok s' →
      startsWith s' ("camera".toList) = Except.error ParseError.DidntStartWith →
      parseInput s = Except.error ParseError.MissingCamera)
    ∧ (∀ (s : Str) (rest : Str),
      Except.map (fun out => out.2.2.2) (parseInputCore s) = Except.ok rest → rest ≠ [] →
      parseInput s = Except.error ParseError.WrongSyntax)
    ∧ (∀ (s : Str) (e : ParseError), parseFloat s = Except.error e → e = ParseError.NotAF32)
    ∧ (∀ (s : Str) (e : ParseError), parseInt s = Except.error e → e = ParseError.NotAI32)
    ∧ parseWorld none = Except.error ParseError.CouldntOpenFile := by
  refine ⟨?_, ?_, ?_, ?_, rfl⟩
  · intro s s' hsc hsw
    have hcam : parseCamera s' = none := by
      unfold parseCamera
      rw [hsw]
    unfold parseInput parseInputCore
    simp only [hsc, hcam]
  · intro s rest hmap hne
    rcases hcore : parseInputCore s with e | out
    · rw [hcore] at hmap
      exact absurd hmap (by simp [Except.map])
    · rw [hcore] at hmap
      simp only [Except.map, Except.ok.injEq] at hmap
      obtain ⟨cam, sph, tri, r⟩ := out
      unfold parseInput
      rw [hcore]
      simp only at hmap
      rcases r with _ | ⟨c, cs⟩
      · exact absurd (hmap ▸ rfl) hne
      · rfl
  · intro s e h
    unfold parseFloat at h
    split_ifs at h with hlen
    · simp only [Except.error.injEq] at h
      exact h.symm
    · dsimp only at h
      rcases hfs : floatScan (if (s.head? == some '-' : Bool) then s.drop 1 else s) false
        with e' | pr
      · rw [hfs] at h
        simp only [Except.error.injEq] at h
        exact h ▸ floatScan_error _ _ _ hfs
      · rw [hfs] at h
        obtain ⟨body, rest⟩ := pr
        simp only at h
        split_ifs at h with hdig
        simp only [Except.error.injEq] at h
        exact h.symm
  · intro s e h
    unfold parseInt at h
    dsimp only at h
    split_ifs at h with h1 h2
    · simp only [Except.error.injEq] at h
      exact h.symm
    · simp only [Except.error.injEq] at h
      exact h.symm

/-- Witness for C9 on concrete inputs: a sphere-first input, a valid
camera followed by junk, the literals `-.xy` and `x`, and a missing
file. -/
theorem claim9_parser_error_kinds_witness :
    parseInput ("sphere".toList) = Except.error ParseError.MissingCamera ∧
    parseInput ("camera origin 1.0 2.0 3.0 aspect 1.5 ;@@".toList) =
      Except.error ParseError.WrongSyntax ∧
    ParseError.NotAF32 = ParseError.NotAF32 ∧
    ParseError.NotAI32 = ParseError.NotAI32 ∧
    parseWorld none = Except.error ParseError.CouldntOpenFile := by
  refine ⟨claim9_parser_error_kinds.1 _ _ rfl rfl, claim9_parser_error_kinds.2.1 _ ("@@".toList) rfl (by simp),
    claim9_parser_error_kinds.2.2.1 ("-.xy".toList) _ rfl, claim9_parser_error_kinds.2.2.2.1 ("x".toList) _ rfl,
    claim9_parser_error_kinds.2.2.2.2⟩


/-- Floor evaluation for the gamma-corrected red channel `√0.6 · 255.999`. -/
theorem sqrt06_floor : ⌊Real.sqrt 0.6 * 255.999⌋ = 198 := by
  have h1 : (0.7745 : ℝ) < Real.sqrt 0.6 := by
    nlinarith [Real.sq_sqrt (show (0:ℝ) ≤ 0.6 by norm_num), Real.sqrt_nonneg (0.6 : ℝ)]
  have h2 : Real.sqrt 0.6 < 0.7746 := by
    nlinarith [Real.sq_sqrt (show (0:ℝ) ≤ 0.6 by norm_num), Real.sqrt_nonneg (0.6 : ℝ)]
  rw [Int.floor_eq_iff]
  constructor
  · push_cast; nlinarith
  · push_cast; nlinarith

/-- Floor evaluation for the gamma-corrected green channel `√0.76 · 255.999`. -/
theorem sqrt076_floor : ⌊Real.sqrt 0.76 * 255.999⌋ = 223 := by
  have h1 : (0.8717 : ℝ) < Real.sqrt 0.76 := by
    nlinarith [Real.sq_sqrt (show (0:ℝ) ≤ 0.76 by norm_num), Real.sqrt_nonneg (0.76 : ℝ)]
  have h2 : Real.sqrt 0.76 < 0.8718 := by
    nlinarith [Real.sq_sqrt (show (0:ℝ) ≤ 0.76 by norm_num), Real.sqrt_nonneg (0.76 : ℝ)]
  rw [Int.floor_eq_iff]
  constructor
  · push_cast; nlinarith
  · push_cast; nlinarith

/-- Gamma conversion of the white sample `(1, 1, 1, 2)` at one sample per
pixel: every channel saturates to `255`. -/
theorem gamma7a : gammaCorrect ⟨1, 1, 1, 2⟩ 1 = ⟨255, 255, 255, 255⟩ := by
  rw [gammaCorrect]
  norm_num [toU8, Int.toNat_ofNat]
  rfl

/-- Gamma conversion of the sky sample `(0.6, 0.76, 1, 2)` at one sample
per pixel. -/
theorem gamma7b : gammaCorrect ⟨0.6, 0.76, 1, 2⟩ 1 = ⟨198, 223, 255, 255⟩ := by
  rw [gammaCorrect]
  have e1 : (0.6 : ℝ) * (1 / ((1 : ℤ) : ℝ)) = 0.6 := by norm_num
  have e2 : (0.76 : ℝ) * (1 / ((1 : ℤ) : ℝ)) = 0.76 := by norm_num
  have e3 : (1 : ℝ) * (1 / ((1 : ℤ) : ℝ)) = 1 := by norm_num
  rw [e1, e2, e3, Real.sqrt_one]
  have f1 : toU8 (Real.sqrt 0.6 * 255.999) = 198 := by
    rw [toU8, sqrt06_floor]; rfl
  have f2 : toU8 (Real.sqrt 0.76 * 255.999) = 223 := by
    rw [toU8, sqrt076_floor]; rfl
  rw [f1, f2]
  norm_num [toU8, Int.toNat_ofNat]
  rfl

/-- Depth-1 `ray_color` on the empty world is the background gradient,
for every scatter model, ray and random state. -/
theorem bg7 {μ : Type} (scatter : Scatter μ) (ray : Ray) (g : Rand) :
    rayColor scatter ray (World.mk [] []) g 1 =
      (Color.ofVec3 (lerp ⟨1, 1, 1⟩ ⟨0.5, 0.7, 1.0⟩
        (0.5 * (ray.direction.normalize.y + 1))), g) := by
  have hit : (World.mk ([] : List (Sphere μ)) []).hit ray = none := rfl
  rw [rayColor, show ((1 : ℤ)).toNat = 0 + 1 from rfl]
  simp only [rayColorLoop, hit]
  simp [Color.mulWithAlpha, Color.new, Color.ofVec3]

/-- One-sample pixel evaluation at row `0` of the `camera7` scene: the
down ray gives the white background; the sample accumulator ends at
`(1, 1, 1, 2)` and the stream advances by the two jitter draws. -/
theorem sample7_row0 (col : ℕ) (g : Rand) (h1 : g 1 = 0) :
    samplePixel scatter7 (World.mk [] []) camera7 2 2 1 0 col 1 (Color.new 0 0 0) g =
      (⟨1, 1, 1, 2⟩, fun n => g (n + 1 + 1)) := by
  rw [show (1 : ℕ) = Nat.succ 0 from rfl]
  simp only [samplePixel, randDraw]
  norm_num [h1, camera7]
  rw [bg7]
  norm_num [Vec3.normalize, Vec3.sdiv, Vec3.length, Vec3.lengthSquared,
    Real.sqrt_one, lerp, Vec3.smul, Color.ofVec3, Color.addWithAlpha, Color.new]

/-- One-sample pixel evaluation at row `1` of the `camera7` scene: the
`(0, 3, 4)` ray gives the `(0.6, 0.76, 1)` background mix. -/
theorem sample7_row1 (col : ℕ) (g : Rand) (h1 : g 1 = 0) :
    samplePixel scatter7 (World.mk [] []) camera7 2 2 1 1 col 1 (Color.new 0 0 0) g =
      (⟨0.6, 0.76, 1, 2⟩, fun n => g (n + 1 + 1)) := by
  rw [show (1 : ℕ) = Nat.succ 0 from rfl]
  simp only [samplePixel, randDraw]
  norm_num [h1, camera7]
  rw [bg7]
  have s25 : Real.sqrt 25 = 5 := by
    rw [show (25 : ℝ) = 5 ^ 2 by norm_num]
    exact Real.sqrt_sq (by norm_num)
  norm_num [Vec3.normalize, Vec3.sdiv, Vec3.length, Vec3.lengthSquared,
    s25, lerp, Vec3.smul, Color.ofVec3, Color.addWithAlpha, Color.new]

/-- Full evaluation of the 2×2 `camera7` render, for either value of the
`positive_is_up` flag: row `0` (white) lands in the second framebuffer
row, row `1` (sky mix) in the first. -/
theorem render7 (b : Bool) :
    rayTrace scatter7 (World.mk [] []) camera7 fb7 ⟨1, 1, b⟩ g7 =
      ⟨2, 2, [⟨198, 223, 255, 255⟩, ⟨198, 223, 255, 255⟩,
              ⟨255, 255, 255, 255⟩, ⟨255, 255, 255, 255⟩]⟩ := by
  have h00 : renderPixel scatter7 (World.mk [] []) camera7 2 2 ⟨1, 1, b⟩ 0 0
      (⟨2, 2, [⟨0, 0, 0, 0⟩, ⟨0, 0, 0, 0⟩, ⟨0, 0, 0, 0⟩, ⟨0, 0, 0, 0⟩]⟩, g7) =
      (⟨2, 2, [⟨0, 0, 0, 0⟩, ⟨0, 0, 0, 0⟩, ⟨255, 255, 255, 255⟩, ⟨0, 0, 0, 0⟩]⟩,
       fun n => g7 (n + 1 + 1)) := by
    rw [renderPixel]
    dsimp only
    simp only [Int.toNat_one]
    rw [sample7_row0 0 g7 rfl]
    dsimp only
    rw [gamma7a]
    rfl
  have h01 : renderPixel scatter7 (World.mk [] []) camera7 2 2 ⟨1, 1, b⟩ 0 1
      (⟨2, 2, [⟨0, 0, 0, 0⟩, ⟨0, 0, 0, 0⟩, ⟨255, 255, 255, 255⟩, ⟨0, 0, 0, 0⟩]⟩,
       fun n => g7 (n + 1 + 1)) =
      (⟨2, 2, [⟨0, 0, 0, 0⟩, ⟨0, 0, 0, 0⟩, ⟨255, 255, 255, 255⟩, ⟨255, 255, 255, 255⟩]⟩,
       fun n => g7 (n + 1 + 1 + 1 + 1)) := by
    rw [renderPixel]
    dsimp only
    simp only [Int.toNat_one]
    rw [sample7_row0 1 (fun n => g7 (n + 1 + 1)) rfl]
    dsimp only
    rw [gamma7a]
    rfl
  have h10 : renderPixel scatter7 (World.mk [] []) camera7 2 2 ⟨1, 1, b⟩ 1 0
      (⟨2, 2, [⟨0, 0, 0, 0⟩, ⟨0, 0, 0, 0⟩, ⟨255, 255, 255, 255⟩, ⟨255, 255, 255, 255⟩]⟩,
       fun n => g7 (n + 1 + 1 + 1 + 1)) =
      (⟨2, 2, [⟨198, 223, 255, 255⟩, ⟨0, 0, 0, 0⟩, ⟨255, 255, 255, 255⟩,
        ⟨255, 255, 255, 255⟩]⟩,
       fun n => g7 (n + 1 + 1 + 1 + 1 + 1 + 1)) := by
    rw [renderPixel]
    dsimp only
    simp only [Int.toNat_one]
    rw [sample7_row1 0 (fun n => g7 (n + 1 + 1 + 1 + 1)) rfl]
    dsimp only
    rw [gamma7b]
    rfl
  have h11 : renderPixel scatter7 (World.mk [] []) camera7 2 2 ⟨1, 1, b⟩ 1 1
      (⟨2, 2, [⟨198, 223, 255, 255⟩, ⟨0, 0, 0, 0⟩, ⟨255, 255, 255, 255⟩,
        ⟨255, 255, 255, 255⟩]⟩,
       fun n => g7 (n + 1 + 1 + 1 + 1 + 1 + 1)) =
      (⟨2, 2, [⟨198, 223, 255, 255⟩, ⟨198, 223, 255, 255⟩, ⟨255, 255, 255, 255⟩,
        ⟨255, 255, 255, 255⟩]⟩,
       fun n => g7 (n + 1 + 1 + 1 + 1 + 1 + 1 + 1 + 1)) := by
    rw [renderPixel]
    dsimp only
    simp only [Int.toNat_one]
    rw [sample7_row1 1 (fun n => g7 (n + 1 + 1 + 1 + 1 + 1 + 1)) rfl]
    dsimp only
    rw [gamma7b]
    rfl
  rw [rayTrace]
  simp only [fb7, show List.range 2 = [0, 1] from rfl, renderRow, List.foldl]
  rw [h00, h01, h10, h11]

/-- C7 (counterexample): on a concrete 2×2 scene whose two output rows
differ, toggling `positive_is_up` leaves the `ray_trace` output
unchanged, and the output is not the row-flip of itself — so the flag
does not determine the row write order.  `ray_trace` never reads the
flag: rows are always written at `framebuffer[[height - row - 1, col]]`. -/
theorem claim7_flag_row_order_counterexample :
    rayTrace scatter7 (World.mk [] []) camera7 fb7 ⟨1, 1, true⟩ g7 =
      rayTrace scatter7 (World.mk [] []) camera7 fb7 ⟨1, 1, false⟩ g7 ∧
    rayTrace scatter7 (World.mk [] []) camera7 fb7 ⟨1, 1, true⟩ g7 ≠
      flipRows (rayTrace scatter7 (World.mk [] []) camera7 fb7 ⟨1, 1, false⟩ g7) := by
  constructor
  · rw [render7 true, render7 false]
  · rw [render7 true, render7 false]
    rw [show flipRows ⟨2, 2, [⟨198, 223, 255, 255⟩, ⟨198, 223, 255, 255⟩,
          ⟨255, 255, 255, 255⟩, ⟨255, 255, 255, 255⟩]⟩ =
        ⟨2, 2, [⟨255, 255, 255, 255⟩, ⟨255, 255, 255, 255⟩,
          ⟨198, 223, 255, 255⟩, ⟨198, 223, 255, 255⟩]⟩ from rfl]
    intro h
    simp at h

/-- C7 (amended): `ray_trace` is entirely independent of the
`positive_is_up` option — the flag is never read, so changing it changes
neither the write order nor the pixel values, for every scatter model,
world, camera, framebuffer, sample/bounce counts and random stream. -/
theorem claim7_positive_is_up_ignored {μ : Type} (scatter : Scatter μ)
    (world : World μ) (camera : Camera) (fb : Framebuffer)
    (samples bounces : ℤ) (b b' : Bool) (g : Rand) :
    rayTrace scatter world camera fb ⟨samples, bounces, b⟩ g =
      rayTrace scatter world camera fb ⟨samples, bounces, b'⟩ g := rfl


/-- Definitional bridge: the source's per-pixel conversion equals the
claim-worded conversion (square-root gamma of the averaged colour on
r/g/b, linear alpha). -/
theorem gamma_eq_specPixel (c : Color) (n : ℤ) :
    gammaCorrect c n = specPixelOf (avgColor c n) := rfl

/-- Row-major flat indices with in-range column parts are componentwise
injective. -/
theorem idx_inj {w a b ca cb : ℕ} (hca : ca < w) (hcb : cb < w)
    (h : a * w + ca = b * w + cb) : a = b ∧ ca = cb := by
  have hw : 0 < w := Nat.pos_of_ne_zero (by rintro rfl; omega)
  have hda : (a * w + ca) / w = a := by
    rw [Nat.mul_comm a w, Nat.mul_add_div hw, Nat.div_eq_of_lt hca, Nat.add_zero]
  have hdb : (b * w + cb) / w = b := by
    rw [Nat.mul_comm b w, Nat.mul_add_div hw, Nat.div_eq_of_lt hcb, Nat.add_zero]
  have hab : a = b := by rw [← hda, ← hdb, h]
  refine ⟨hab, ?_⟩
  subst hab
  omega

/-- The flipped write index is injective on in-range (row, column) pairs. -/
theorem flipIdx_inj {w h r1 c1 r2 c2 : ℕ} (h1 : r1 < h) (h2 : r2 < h)
    (hc1 : c1 < w) (hc2 : c2 < w) (he : flipIdx w h r1 c1 = flipIdx w h r2 c2) :
    r1 = r2 ∧ c1 = c2 := by
  rw [flipIdx, flipIdx] at he
  obtain ⟨ha, hc⟩ := idx_inj hc1 hc2 he
  exact ⟨by omega, hc⟩

/-- The flipped write index of an in-range pixel is inside the
`width * height` buffer. -/
theorem flipIdx_lt {w h r c : ℕ} (hr : r < h) (hc : c < w) :
    flipIdx w h r c < w * h := by
  rw [flipIdx]
  have h1 : h - r - 1 ≤ h - 1 := by omega
  have h2 : (h - r - 1) * w ≤ (h - 1) * w := Nat.mul_le_mul_right w h1
  have h3 : (h - 1) * w + w = h * w := by
    have : h - 1 + 1 = h := by omega
    calc (h - 1) * w + w = (h - 1 + 1) * w := by ring
    _ = h * w := by rw [this]
  calc (h - r - 1) * w + c < (h - r - 1) * w + w := by omega
  _ ≤ (h - 1) * w + w := by omega
  _ = h * w := h3
  _ = w * h := Nat.mul_comm h w

/-- Writing one pixel preserves the pixel-buffer length. -/
theorem renderPixel_len {μ : Type} (scatter : Scatter μ) (world : World μ)
    (camera : Camera) (fbw fbh : ℕ) (o : Options) (row col : ℕ)
    (st : Framebuffer × Rand) :
    (renderPixel scatter world camera fbw fbh o row col st).1.pixels.length =
      st.1.pixels.length := by
  rw [renderPixel]
  exact List.length_set st.1.pixels _ _

/-- Writing one pixel leaves every other flat index unchanged. -/
theorem renderPixel_get_ne {μ : Type} (scatter : Scatter μ) (world : World μ)
    (camera : Camera) (fbw fbh : ℕ) (o : Options) (row col : ℕ)
    (st : Framebuffer × Rand) (i : ℕ) (h : flipIdx fbw fbh row col ≠ i) :
    (renderPixel scatter world camera fbw fbh o row col st).1.pixels[i]? =
      st.1.pixels[i]? := by
  rw [renderPixel]
  exact List.getElem?_set_ne h

/-- A column sweep preserves the pixel-buffer length. -/
theorem renderCols_len {μ : Type} (scatter : Scatter μ) (world : World μ)
    (camera : Camera) (fbw fbh : ℕ) (o : Options) (row : ℕ) :
    ∀ (cols : List ℕ) (st : Framebuffer × Rand),
      ((cols.foldl (fun st2 col => renderPixel scatter world camera fbw fbh o row col st2)
        st).1.pixels.length) = st.1.pixels.length := by
  intro cols
  induction cols with
  | nil => intro st; rfl
  | cons c cs ih =>
      intro st
      rw [List.foldl_cons, ih, renderPixel_len]

/-- A column sweep leaves untouched flat indices unchanged. -/
theorem renderCols_get_ne {μ : Type} (scatter : Scatter μ) (world : World μ)
    (camera : Camera) (fbw fbh : ℕ) (o : Options) (row : ℕ) :
    ∀ (cols : List ℕ) (st : Framebuffer × Rand) (i : ℕ),
      (∀ c ∈ cols, flipIdx fbw fbh row c ≠ i) →
      ((cols.foldl (fun st2 col => renderPixel scatter world camera fbw fbh o row col st2)
        st).1.pixels[i]?) = st.1.pixels[i]? := by
  intro cols
  induction cols with
  | nil => intro st i _; rfl
  | cons c cs ih =>
      intro st i hne
      rw [List.foldl_cons, ih _ i (fun c' hc' => hne c' (List.mem_cons_of_mem c hc')),
        renderPixel_get_ne _ _ _ _ _ _ _ _ _ _ (hne c (List.mem_cons_self c cs))]


/-- After a column sweep over distinct in-range columns containing
`col`, the buffer at `col`'s flipped index holds the gamma-corrected
sample of `(row, col)` for some intermediate random state. -/
theorem renderCols_get_write {μ : Type} (scatter : Scatter μ) (world : World μ)
    (camera : Camera) (fbw fbh : ℕ) (o : Options) (row : ℕ) :
    ∀ (cols : List ℕ) (st : Framebuffer × Rand) (col : ℕ), col ∈ cols → cols.Nodup →
      col < fbw → flipIdx fbw fbh row col < st.1.pixels.length →
      ∃ gs : Rand,
        ((cols.foldl (fun st2 c => renderPixel scatter world camera fbw fbh o row c st2)
          st).1.pixels[flipIdx fbw fbh row col]?) =
          some (gammaCorrect (samplePixel scatter world camera fbw fbh o.max_ray_bounces
            row col o.samples_per_pixel.toNat (Color.new 0 0 0) gs).1 o.samples_per_pixel) := by
  intro cols
  induction cols with
  | nil => intro st col hmem; exact absurd hmem (List.not_mem_nil col)
  | cons c cs ih =>
      intro st col hmem hnodup hcol hlt
      obtain ⟨hni, hnd⟩ := List.nodup_cons.mp hnodup
      rw [List.foldl_cons]
      rcases List.mem_cons.mp hmem with rfl | hmem'
      · refine ⟨st.2, ?_⟩
        rw [renderCols_get_ne scatter world camera fbw fbh o row cs _ _ ?hne]
        case hne =>
          intro c' hc' heq
          rw [flipIdx, flipIdx] at heq
          have : c' = col := by omega
          exact hni (this ▸ hc')
        rw [renderPixel]
        exact List.getElem?_set_eq hlt
      · exact ih (renderPixel scatter world camera fbw fbh o row c st) col hmem' hnd hcol
          (by rw [renderPixel_len]; exact hlt)

/-- A row sweep preserves the pixel-buffer length. -/
theorem renderRows_len {μ : Type} (scatter : Scatter μ) (world : World μ)
    (camera : Camera) (fbw fbh : ℕ) (o : Options) :
    ∀ (rows : List ℕ) (st : Framebuffer × Rand),
      ((rows.foldl (renderRow scatter world camera fbw fbh o) st).1.pixels.length) =
        st.1.pixels.length := by
  intro rows
  induction rows with
  | nil => intro st; rfl
  | cons r rs ih =>
      intro st
      rw [List.foldl_cons, ih, renderRow, renderCols_len]

/-- A row sweep over rows that never write a given flat index leaves it
unchanged. -/
theorem renderRows_get_ne {μ : Type} (scatter : Scatter μ) (world : World μ)
    (camera : Camera) (fbw fbh : ℕ) (o : Options) :
    ∀ (rows : List ℕ) (st : Framebuffer × Rand) (i : ℕ),
      (∀ r ∈ rows, ∀ c, c < fbw → flipIdx fbw fbh r c ≠ i) →
      ((rows.foldl (renderRow scatter world camera fbw fbh o) st).1.pixels[i]?) =
        st.1.pixels[i]? := by
  intro rows
  induction rows with
  | nil => intro st i _; rfl
  | cons r rs ih =>
      intro st i hne
      rw [List.foldl_cons, ih _ i (fun r' hr' => hne r' (List.mem_cons_of_mem r hr')),
        renderRow, renderCols_get_ne]
      intro c hc
      exact hne r (List.mem_cons_self r rs) c (List.mem_range.mp hc)

/-- After a row sweep over distinct in-range rows containing `row`, the
buffer at `(row, col)`'s flipped index holds the gamma-corrected sample
of `(row, col)` for some intermediate random state. -/
theorem renderRows_get_write {μ : Type} (scatter : Scatter μ) (world : World μ)
    (camera : Camera) (fbw fbh : ℕ) (o : Options) :
    ∀ (rows : List ℕ) (st : Framebuffer × Rand) (row col : ℕ), row ∈ rows → rows.Nodup →
      (∀ r ∈ rows, r < fbh) → col < fbw → st.1.pixels.length = fbw * fbh →
      ∃ gs : Rand,
        ((rows.foldl (renderRow scatter world camera fbw fbh o) st).1.pixels[flipIdx fbw fbh row col]?) =
          some (gammaCorrect (samplePixel scatter world camera fbw fbh o.max_ray_bounces
            row col o.samples_per_pixel.toNat (Color.new 0 0 0) gs).1 o.samples_per_pixel) := by
  intro rows
  induction rows with
  | nil => intro st row col hmem; exact absurd hmem (List.not_mem_nil row)
  | cons r rs ih =>
      intro st row col hmem hnodup hrows hcol hlen
      obtain ⟨hni, hnd⟩ := List.nodup_cons.mp hnodup
      have hrow : row < fbh := hrows row hmem
      rw [List.foldl_cons]
      rcases List.mem_cons.mp hmem with rfl | hmem'
      · obtain ⟨gs, hg⟩ := renderCols_get_write scatter world camera fbw fbh o row
          (List.range fbw) st col (List.mem_range.mpr hcol) (List.nodup_range fbw) hcol
          (by rw [hlen]; exact flipIdx_lt hrow hcol)
        refine ⟨gs, ?_⟩
        rw [renderRows_get_ne scatter world camera fbw fbh o rs _ _ ?hne]
        case hne =>
          intro r' hr' c hc heq
          obtain ⟨hre, _⟩ := flipIdx_inj (hrows r' (List.mem_cons_of_mem row hr')) hrow hc hcol heq
          exact hni (hre ▸ hr')
        rw [renderRow]
        exact hg
      · exact ih (renderRow scatter world camera fbw fbh o st r) row col hmem' hnd
          (fun r' hr' => hrows r' (List.mem_cons_of_mem r hr')) hcol
          (by rw [renderRow, renderCols_len]; exact hlen)

/-- C10: for every scene, options, random stream and in-range pixel of a
well-sized framebuffer, the pixel `ray_trace` writes at
`[height - row - 1, column]` is exactly the claim's conversion of the
averaged sample colour: square-root gamma applied to the R, G and B
channels only, then scaled by `255.999` and truncated to 8 bits, with
the alpha channel stored as the plain linear average scaled by `255.999`
and no square root applied (for the random state the sampler reached at
that pixel). -/
theorem claim10_gamma_rgb_only {μ : Type} (scatter : Scatter μ) (world : World μ)
    (camera : Camera) (fb : Framebuffer) (options : Options) (g : Rand) (row col : ℕ)
    (hrow : row < fb.height) (hcol : col < fb.width)
    (hlen : fb.pixels.length = fb.width * fb.height) :
    ∃ gs : Rand,
      ((rayTrace scatter world camera fb options g).pixels[flipIdx fb.width fb.height row col]?) =
        some (specPixelOf (avgColor
          (samplePixel scatter world camera fb.width fb.height options.max_ray_bounces
            row col options.samples_per_pixel.toNat (Color.new 0 0 0) gs).1
          options.samples_per_pixel)) := by
  obtain ⟨gs, hg⟩ := renderRows_get_write scatter world camera fb.width fb.height options
    (List.range fb.height) (fb, g) row col (List.mem_range.mpr hrow)
    (List.nodup_range fb.height) (fun r hr => List.mem_range.mp hr) hcol hlen
  refine ⟨gs, ?_⟩
  rw [rayTrace, ← gamma_eq_specPixel]
  exact hg


/-- Witness for C10 at the concrete 2×2 scene, pixel `(0, 0)`. -/
theorem claim10_gamma_rgb_only_witness :
    0 < fb7.height ∧ 0 < fb7.width ∧
    fb7.pixels.length = fb7.width * fb7.height ∧
    ∃ gs : Rand,
      ((rayTrace scatter7 (World.mk [] []) camera7 fb7 ⟨1, 1, true⟩
          g7).pixels[flipIdx fb7.width fb7.height 0 0]?) =
        some (specPixelOf (avgColor
          (samplePixel scatter7 (World.mk [] []) camera7 fb7.width fb7.height
            (Options.mk 1 1 true).max_ray_bounces 0 0
            (Options.mk 1 1 true).samples_per_pixel.toNat (Color.new 0 0 0) gs).1
          (Options.mk 1 1 true).samples_per_pixel)) :=
  ⟨by decide, by decide, by decide,
   claim10_gamma_rgb_only scatter7 (World.mk [] []) camera7 fb7 ⟨1, 1, true⟩ g7 0 0
     (by decide) (by decide) (by decide)⟩

end RT

end
